import Mathlib

/-!
# h2go: DSN resolution and the driver / connector lifecycle

A shallow embedding of `driver.go` (package `h2go`) together with the parts of the Go
standard library it calls (`strings`, `strconv`, `net/url`), followed by theorems about
`parseURL` and the driver methods.

Conventions of the embedding.

* A Go string is a sequence of bytes: it is a Lean `String` whose characters are the bytes
  (codes 0 to 255), and the library functions work on that list.  `url.Parse` starts by
  taking the UTF-8 encoding of the DSN it is given, a percent escape `%XX` decodes to the
  byte `XX`, and `strings.TrimSpace` and `strings.ToLower` decode UTF-8 as Go does.
* Go `int` is the 64-bit signed integer; `strconv.Atoi` saturates as in Go.
* A Go map (`url.Values`) is an association list with distinct keys; the order in which a
  `range` statement visits the keys is unspecified in Go and is a parameter (`RangeOrder`).
* The process-wide state (`doLogging` and the level of the standard logrus logger) is
  passed explicitly as a `LogConfig`.
* A run-time panic (index out of range) is an outcome of its own.
-/

namespace H2go

/-! ## Package `unicode/utf8` -/

namespace utf8

/-- The constant `utf8.RuneError`, U+FFFD. -/
def RuneError : Nat := 0xFFFD

/-- Whether the byte is a continuation byte; `utf8.RuneStart` is its negation. -/
def isCont (c : Char) : Bool := 0x80 ≤ c.toNat && c.toNat ≤ 0xBF

/-- The function `utf8.DecodeRune`: the first rune of `p` and its width in bytes;
`(RuneError, 0)` for the empty text and `(RuneError, 1)` for an encoding that is invalid
or cut short. -/
def DecodeRune (p : List Char) : Nat × Nat :=
  match p with
  | [] => (RuneError, 0)
  | c0 :: rest =>
    if c0.toNat < 0x80 then (c0.toNat, 1)
    else if 0xC2 ≤ c0.toNat ∧ c0.toNat ≤ 0xDF then
      match rest with
      | c1 :: _ =>
        if isCont c1 then ((c0.toNat - 0xC0) * 64 + (c1.toNat - 0x80), 2)
        else (RuneError, 1)
      | [] => (RuneError, 1)
    else if 0xE0 ≤ c0.toNat ∧ c0.toNat ≤ 0xEF then
      match rest with
      | c1 :: c2 :: _ =>
        if (if c0.toNat = 0xE0 then 0xA0 else 0x80) ≤ c1.toNat ∧
            c1.toNat ≤ (if c0.toNat = 0xED then 0x9F else 0xBF) ∧ isCont c2 then
          ((c0.toNat - 0xE0) * 4096 + (c1.toNat - 0x80) * 64 + (c2.toNat - 0x80), 3)
        else (RuneError, 1)
      | _ => (RuneError, 1)
    else if 0xF0 ≤ c0.toNat ∧ c0.toNat ≤ 0xF4 then
      match rest with
      | c1 :: c2 :: c3 :: _ =>
        if (if c0.toNat = 0xF0 then 0x90 else 0x80) ≤ c1.toNat ∧
            c1.toNat ≤ (if c0.toNat = 0xF4 then 0x8F else 0xBF) ∧ isCont c2 ∧ isCont c3 then
          ((c0.toNat - 0xF0) * 262144 + (c1.toNat - 0x80) * 4096 + (c2.toNat - 0x80) * 64 +
            (c3.toNat - 0x80), 4)
        else (RuneError, 1)
      | _ => (RuneError, 1)
    else (RuneError, 1)

/-- How far back from the end the start byte of the last rune lies (2, 3 or 4 bytes),
given the bytes before the last one, nearest first; 0 when there is none in reach. -/
def lastRuneStart (before : List Char) : Nat :=
  match before with
  | [] => 0
  | b1 :: more =>
    if ¬ isCont b1 then 2
    else
      match more with
      | [] => 0
      | b2 :: more2 =>
        if ¬ isCont b2 then 3
        else
          match more2 with
          | [] => 0
          | b3 :: _ => if ¬ isCont b3 then 4 else 0

/-- The function `utf8.DecodeLastRune`, on the text given in reverse (last byte first):
the last rune and its width. -/
def DecodeLastRune (rev : List Char) : Nat × Nat :=
  match rev with
  | [] => (RuneError, 0)
  | c :: before =>
    if c.toNat < 0x80 then (c.toNat, 1)
    else if lastRuneStart before ≠ 0 ∧
        (DecodeRune (rev.take (lastRuneStart before)).reverse).2 = lastRuneStart before then
      DecodeRune (rev.take (lastRuneStart before)).reverse
    else (RuneError, 1)

/-- The UTF-8 encoding of a rune (`utf8.AppendRune`); a rune out of range or in the
surrogate range is encoded as `RuneError`. -/
def EncodeRune (r : Nat) : List Char :=
  if r < 0x80 then [Char.ofNat r]
  else if r < 0x800 then [Char.ofNat (0xC0 + r / 64), Char.ofNat (0x80 + r % 64)]
  else if r > 0x10FFFF ∨ (0xD800 ≤ r ∧ r ≤ 0xDFFF) then
    [Char.ofNat 0xEF, Char.ofNat 0xBF, Char.ofNat 0xBD]
  else if r < 0x10000 then
    [Char.ofNat (0xE0 + r / 4096), Char.ofNat (0x80 + r / 64 % 64), Char.ofNat (0x80 + r % 64)]
  else
    [Char.ofNat (0xF0 + r / 262144), Char.ofNat (0x80 + r / 4096 % 64),
      Char.ofNat (0x80 + r / 64 % 64), Char.ofNat (0x80 + r % 64)]

/-- The bytes of a text: the UTF-8 encoding of its characters. -/
def encode : List Char → List Char
  | [] => []
  | c :: cs => EncodeRune c.toNat ++ encode cs

end utf8

/-! ## Package `strings` -/

/-- The predicate `unicode.IsSpace`. -/
def isSpace (c : Char) : Bool :=
  let n := c.toNat
  (9 ≤ n && n ≤ 13) || n == 32 || n == 0x85 || n == 0xA0 || n == 0x1680 ||
    (0x2000 ≤ n && n ≤ 0x200A) || n == 0x2028 || n == 0x2029 || n == 0x202F ||
    n == 0x205F || n == 0x3000

/-- The call `strings.TrimLeftFunc(s, unicode.IsSpace)`: the leading runes that are white
space are removed; an invalid byte decodes to `RuneError`, which is not white space.  The
first argument bounds the number of runes and is the length of the text. -/
def trimLeftSpace : Nat → List Char → List Char
  | 0, s => s
  | fuel + 1, s =>
    match s with
    | [] => []
    | _ :: _ =>
      if isSpace (Char.ofNat (utf8.DecodeRune s).1) then
        trimLeftSpace fuel (s.drop (utf8.DecodeRune s).2)
      else s

/-- The call `strings.TrimRightFunc(s, unicode.IsSpace)`, on the text given in reverse:
runes are decoded from the end while they are white space (`suffix` collects them); the
text is then cut after the last rune that is not, whose width is decoded forwards as in
Go. -/
def trimRightSpace : Nat → List Char → List Char → List Char
  | 0, rev, _ => rev.reverse
  | fuel + 1, rev, suffix =>
    match rev with
    | [] => []
    | _ :: _ =>
      if isSpace (Char.ofNat (utf8.DecodeLastRune rev).1) then
        trimRightSpace fuel (rev.drop (utf8.DecodeLastRune rev).2)
          ((rev.take (utf8.DecodeLastRune rev).2).reverse ++ suffix)
      else if (rev.drop ((utf8.DecodeLastRune rev).2 - 1)).head?.any
          (fun c => decide (0x80 ≤ c.toNat)) then
        (rev.drop (utf8.DecodeLastRune rev).2).reverse ++
          ((rev.take (utf8.DecodeLastRune rev).2).reverse ++ suffix).take
            (utf8.DecodeRune ((rev.take (utf8.DecodeLastRune rev).2).reverse ++ suffix)).2
      else
        (rev.drop (utf8.DecodeLastRune rev).2).reverse ++
          ((rev.take (utf8.DecodeLastRune rev).2).reverse).take 1

/-- The function `strings.TrimSpace`: leading and trailing white space removed. -/
def TrimSpace (s : String) : String :=
  ⟨trimRightSpace s.data.length (trimLeftSpace s.data.length s.data).reverse []⟩

/-- The function `unicode.ToLower` as far as ASCII can tell: the runes whose lower-case
form is an ASCII letter are A-Z, U+0130 (to `i`) and U+212A (to `k`), and they are mapped
as in Go; the lower-case form of any other rune lies outside ASCII and is not tabulated
here, such a rune is left as it is. -/
def unicodeToLower (r : Nat) : Nat :=
  if 65 ≤ r ∧ r ≤ 90 then r + 32
  else if r = 0x130 then 0x69
  else if r = 0x212A then 0x6B
  else r

/-- The call `strings.Map(unicode.ToLower, s)`: each rune is decoded, mapped and encoded
again; an invalid byte becomes the encoding of `RuneError`.  The first argument bounds the
number of runes and is the length of the text. -/
def mapToLower : Nat → List Char → List Char
  | 0, _ => []
  | fuel + 1, s =>
    match s with
    | [] => []
    | _ :: _ =>
      utf8.EncodeRune (unicodeToLower (utf8.DecodeRune s).1) ++
        mapToLower fuel (s.drop (utf8.DecodeRune s).2)

/-- The function `strings.ToLower`.  Whether the result equals a given ASCII text, which
is all `driver.go` asks of it, is as in Go for every sequence of bytes (see
`unicodeToLower`). -/
def ToLower (s : String) : String :=
  ⟨mapToLower s.data.length s.data⟩

/-- Replace the first occurrence of the character `old` by `new`, if there is one. -/
def replaceFirst (old : Char) (new : List Char) : List Char → List Char
  | [] => []
  | c :: cs => if c = old then new ++ cs else c :: replaceFirst old new cs

/-- The call `strings.Replace(s, old, new, 1)` for a one-character `old`. -/
def Replace1 (s : String) (old : Char) (new : String) : String :=
  ⟨replaceFirst old new.data s.data⟩

/-- The function `strings.Cut` for a one-character separator: the text before the first
separator, the text after it, and whether the separator was found. -/
def cut (sep : Char) : List Char → List Char × List Char × Bool
  | [] => ([], [], false)
  | c :: cs =>
    if c = sep then ([], cs, true)
    else (c :: (cut sep cs).1, (cut sep cs).2.1, (cut sep cs).2.2)

/-- Split at the last occurrence of `sep` (`strings.LastIndex`): the text before it and the
text after it, or `none` when `sep` does not occur. -/
def splitLast (sep : Char) : List Char → Option (List Char × List Char)
  | [] => none
  | c :: cs =>
    match splitLast sep cs with
    | some (a, b) => some (c :: a, b)
    | none => if c = sep then some ([], cs) else none

/-! ## Package `strconv` -/

/-- Whether `c` is one of the ASCII digits. -/
def isDigit (c : Char) : Bool := 48 ≤ c.toNat && c.toNat ≤ 57

/-- The largest `uint64`. -/
def maxUint64 : Nat := 2 ^ 64 - 1

/-- The digit loop of `strconv.ParseUint(s, 10, 64)`, started with accumulator `n`:
`none` is a syntax error, otherwise the value and whether the range was exceeded (in which
case the loop stops at once with the largest value). -/
def parseUintLoop : List Char → Nat → Option (Nat × Bool)
  | [], n => some (n, false)
  | c :: cs, n =>
    if isDigit c then
      if n ≥ maxUint64 / 10 + 1 then some (maxUint64, true)
      else if n * 10 + (c.toNat - 48) > maxUint64 then some (maxUint64, true)
      else parseUintLoop cs (n * 10 + (c.toNat - 48))
    else none

/-- The value returned by `strconv.Atoi(s)`, whose error is dropped by the caller: `0` on
a syntax error, the nearest 64-bit integer when out of range. -/
def Atoi (s : String) : Int :=
  match s.data with
  | [] => 0
  | c :: cs =>
    let body := if c = '-' ∨ c = '+' then cs else c :: cs
    if body = [] then 0
    else
      match parseUintLoop body 0 with
      | none => 0
      | some (un, _) =>
        if c ≠ '-' ∧ un ≥ 2 ^ 63 then 2 ^ 63 - 1
        else if c = '-' ∧ un > 2 ^ 63 then -(2 ^ 63)
        else if c = '-' then -(un : Int) else (un : Int)

/-- The function `strconv.Itoa`: the decimal rendering of an integer. -/
def Itoa (i : Int) : String :=
  if i < 0 then "-" ++ Nat.repr i.natAbs else Nat.repr i.natAbs

/-! ## Package `net/url`

Modelled on the Go standard library (`url.Parse`, `URL.Hostname`, `URL.Port`,
`URL.Query`).  The fields `RawPath`, `RawFragment`, `ForceQuery` and `OmitHost` of
`url.URL` are never read by `driver.go` and are left out. -/

namespace url

/-- The type `url.Userinfo`. -/
structure Userinfo where
  username : String
  password : String
  passwordSet : Bool
deriving DecidableEq, Repr

/-- The type `url.URL`, restricted to the fields that are read. -/
structure URL where
  Scheme : String
  Opaque : String
  User : Option Userinfo
  Host : String
  Path : String
  RawQuery : String
  Fragment : String
deriving DecidableEq, Repr

/-- The errors `url.Parse` reports (the `Err` field of its `*url.Error`). -/
inductive ParseError where
  | invalidControlCharacter
  | missingProtocolScheme
  | firstPathSegmentColon
  | invalidUserinfo
  | missingBracket
  | invalidPort (colonPort : String)
  | EscapeError (s : String)
  | InvalidHostError (s : String)
deriving DecidableEq, Repr

/-- The escaping modes of `net/url`. -/
inductive Encoding where
  | encodePath
  | encodePathSegment
  | encodeHost
  | encodeZone
  | encodeUserPassword
  | encodeQueryComponent
  | encodeFragment
deriving DecidableEq, Repr

/-- Whether `c` is an ASCII letter. -/
def isAlpha (c : Char) : Bool :=
  (97 ≤ c.toNat && c.toNat ≤ 122) || (65 ≤ c.toNat && c.toNat ≤ 90)

/-- The helper `ishex`. -/
def ishex (c : Char) : Bool :=
  isDigit c || (97 ≤ c.toNat && c.toNat ≤ 102) || (65 ≤ c.toNat && c.toNat ≤ 70)

/-- The helper `unhex`. -/
def unhex (c : Char) : Nat :=
  if isDigit c then c.toNat - 48
  else if 97 ≤ c.toNat ∧ c.toNat ≤ 102 then c.toNat - 97 + 10
  else if 65 ≤ c.toNat ∧ c.toNat ≤ 70 then c.toNat - 65 + 10
  else 0

/-- The helper `shouldEscape`. -/
def shouldEscape (c : Char) (mode : Encoding) : Bool :=
  if isAlpha c || isDigit c then false
  else if (mode = .encodeHost ∨ mode = .encodeZone) ∧
      c ∈ ['!', '$', '&', Char.ofNat 39, '(', ')', '*', '+', ',', ';', '=', ':', '[', ']',
        '<', '>', Char.ofNat 34] then false
  else if c ∈ ['-', '_', '.', '~'] then false
  else if c ∈ ['$', '&', '+', ',', '/', ':', ';', '=', '?', '@'] ∧ mode = .encodePath then
    c = '?'
  else if c ∈ ['$', '&', '+', ',', '/', ':', ';', '=', '?', '@'] ∧
      mode = .encodePathSegment then
    c = '/' ∨ c = ';' ∨ c = ',' ∨ c = '?'
  else if c ∈ ['$', '&', '+', ',', '/', ':', ';', '=', '?', '@'] ∧
      mode = .encodeUserPassword then
    c = '@' ∨ c = '/' ∨ c = '?' ∨ c = ':'
  else if c ∈ ['$', '&', '+', ',', '/', ':', ';', '=', '?', '@'] ∧
      mode = .encodeQueryComponent then
    true
  else if c ∈ ['$', '&', '+', ',', '/', ':', ';', '=', '?', '@'] ∧
      mode = .encodeFragment then
    false
  else if mode = .encodeFragment ∧ c ∈ ['!', '(', ')', '*'] then false
  else true

/-- The helper `unescape`: checks the percent escapes (and, for a host, the characters)
and decodes them, `%XX` to the byte `XX`; `+` becomes a blank in a query component. -/
def unescape (mode : Encoding) : List Char → Except ParseError (List Char)
  | [] => .ok []
  | c :: rest =>
    if c = '%' then
      match rest with
      | a :: b :: rest2 =>
        if ishex a ∧ ishex b then
          if mode = .encodeHost ∧ unhex a < 8 ∧ ¬ (a = '2' ∧ b = '5') then
            .error (.EscapeError ⟨[c, a, b]⟩)
          else if mode = .encodeZone ∧ ¬ (a = '2' ∧ b = '5') ∧ unhex a * 16 + unhex b ≠ 32 ∧
              shouldEscape (Char.ofNat (unhex a * 16 + unhex b)) .encodeHost then
            .error (.EscapeError ⟨[c, a, b]⟩)
          else
            match unescape mode rest2 with
            | .ok r => .ok (Char.ofNat (unhex a * 16 + unhex b) :: r)
            | .error e => .error e
        else .error (.EscapeError ⟨[c, a, b]⟩)
      | _ => .error (.EscapeError ⟨c :: rest⟩)
    else if c = '+' then
      match unescape mode rest with
      | .ok r => .ok ((if mode = .encodeQueryComponent then ' ' else '+') :: r)
      | .error e => .error e
    else if (mode = .encodeHost ∨ mode = .encodeZone) ∧ c.toNat < 128 ∧
        shouldEscape c .encodeHost then
      .error (.InvalidHostError ⟨[c]⟩)
    else
      match unescape mode rest with
      | .ok r => .ok (c :: r)
      | .error e => .error e

/-- The helper `getScheme`, with the characters read so far in `acc` (reversed): the
scheme and the rest of the text. -/
def getSchemeAux (raw : List Char) : List Char → List Char →
    Except ParseError (List Char × List Char)
  | [], _ => .ok ([], raw)
  | c :: cs, acc =>
    if isAlpha c then getSchemeAux raw cs (c :: acc)
    else if isDigit c ∨ c = '+' ∨ c = '-' ∨ c = '.' then
      if acc = [] then .ok ([], raw) else getSchemeAux raw cs (c :: acc)
    else if c = ':' then
      if acc = [] then .error .missingProtocolScheme else .ok (acc.reverse, cs)
    else .ok ([], raw)

/-- The helper `getScheme`. -/
def getScheme (raw : List Char) : Except ParseError (List Char × List Char) :=
  getSchemeAux raw raw []

/-- The helper `validOptionalPort`: empty, or a colon followed by digits only. -/
def validOptionalPort (port : List Char) : Bool :=
  match port with
  | [] => true
  | c :: ds => c = ':' && ds.all isDigit

/-- The helper `validUserinfo`. -/
def validUserinfo (s : List Char) : Bool :=
  s.all fun r => isAlpha r || isDigit r ||
    decide (r ∈ ['-', '.', '_', ':', '~', '!', '$', '&', Char.ofNat 39, '(', ')', '*', '+',
      ',', ';', '=', '%', '@'])

/-- Split at the first occurrence of `%25` (`strings.Index(s, "%25")`): the text before it
and the text from it on. -/
def splitZone : List Char → Option (List Char × List Char)
  | [] => none
  | c :: cs =>
    if c = '%' ∧ cs.take 2 = ['2', '5'] then some ([], c :: cs)
    else
      match splitZone cs with
      | some (a, b) => some (c :: a, b)
      | none => none

/-- The helper `parseHost`. -/
def parseHost (host : List Char) : Except ParseError (List Char) :=
  if host.head? = some '[' then
    match splitLast ']' host with
    | none => .error .missingBracket
    | some (lit, colonPort) =>
      if ¬ validOptionalPort colonPort then .error (.invalidPort ⟨colonPort⟩)
      else
        match splitZone lit with
        | some (h1, z) =>
          match unescape .encodeHost h1 with
          | .error e => .error e
          | .ok host1 =>
            match unescape .encodeZone z with
            | .error e => .error e
            | .ok host2 =>
              match unescape .encodeHost (']' :: colonPort) with
              | .error e => .error e
              | .ok host3 => .ok (host1 ++ host2 ++ host3)
        | none => unescape .encodeHost host
  else
    match splitLast ':' host with
    | some (_, p) =>
      if ¬ validOptionalPort (':' :: p) then .error (.invalidPort ⟨':' :: p⟩)
      else unescape .encodeHost host
    | none => unescape .encodeHost host

/-- The helper `parseAuthority`: the user information and the host. -/
def parseAuthority (authority : List Char) :
    Except ParseError (Option Userinfo × List Char) :=
  match splitLast '@' authority with
  | none =>
    match parseHost authority with
    | .error e => .error e
    | .ok host => .ok (none, host)
  | some (userinfo, h) =>
    match parseHost h with
    | .error e => .error e
    | .ok host =>
      if ¬ validUserinfo userinfo then .error .invalidUserinfo
      else if ¬ (':' ∈ userinfo) then
        match unescape .encodeUserPassword userinfo with
        | .error e => .error e
        | .ok name => .ok (some ⟨⟨name⟩, "", false⟩, host)
      else
        match unescape .encodeUserPassword (cut ':' userinfo).1 with
        | .error e => .error e
        | .ok name =>
          match unescape .encodeUserPassword (cut ':' userinfo).2.1 with
          | .error e => .error e
          | .ok pass => .ok (some ⟨⟨name⟩, ⟨pass⟩, true⟩, host)

/-- The function `parse(rawURL, false)`: a URL without fragment. -/
def parseNoFragment (rawURL : List Char) : Except ParseError URL :=
  if rawURL.any (fun b => decide (b.toNat < 32) || b.toNat == 127) then
    .error .invalidControlCharacter
  else if rawURL = ['*'] then
    .ok ⟨"", "", none, "", "*", "", ""⟩
  else
    match getScheme rawURL with
    | .error e => .error e
    | .ok (scheme0, rest0) =>
      let scheme := ToLower ⟨scheme0⟩
      let rest := (cut '?' rest0).1
      let rawQuery : String := ⟨(cut '?' rest0).2.1⟩
      if rest.head? ≠ some '/' ∧ scheme ≠ "" then
        .ok ⟨scheme, ⟨rest⟩, none, "", "", rawQuery, ""⟩
      else if rest.head? ≠ some '/' ∧ ':' ∈ (cut '/' rest).1 then
        .error .firstPathSegmentColon
      else if (scheme ≠ "" ∨ rest.take 3 ≠ ['/', '/', '/']) ∧ rest.take 2 = ['/', '/'] then
        let authority := (cut '/' (rest.drop 2)).1
        let path :=
          if (cut '/' (rest.drop 2)).2.2 then '/' :: (cut '/' (rest.drop 2)).2.1 else []
        match parseAuthority authority with
        | .error e => .error e
        | .ok (user, host) =>
          match unescape .encodePath path with
          | .error e => .error e
          | .ok p => .ok ⟨scheme, "", user, ⟨host⟩, ⟨p⟩, rawQuery, ""⟩
      else
        match unescape .encodePath rest with
        | .error e => .error e
        | .ok p => .ok ⟨scheme, "", none, "", ⟨p⟩, rawQuery, ""⟩

/-- The function `url.Parse`.  The Go string it receives is the UTF-8 encoding of
`rawURL`. -/
def Parse (rawURL : String) : Except ParseError URL :=
  match parseNoFragment (cut '#' (utf8.encode rawURL.data)).1 with
  | .error e => .error e
  | .ok u =>
    if (cut '#' (utf8.encode rawURL.data)).2.1 = [] then .ok u
    else
      match unescape .encodeFragment (cut '#' (utf8.encode rawURL.data)).2.1 with
      | .error e => .error e
      | .ok f => .ok { u with Fragment := ⟨f⟩ }

/-- The helper `splitHostPort`: host and port of a `host:port` text; the port is split off
only when it is a valid optional port, and the brackets of an IP literal are removed. -/
def splitHostPort (hostPort : List Char) : List Char × List Char :=
  let hp : List Char × List Char :=
    match splitLast ':' hostPort with
    | some (h, p) => if validOptionalPort (':' :: p) then (h, p) else (hostPort, [])
    | none => (hostPort, [])
  if hp.1.head? = some '[' ∧ hp.1.getLast? = some ']' then
    ((hp.1.drop 1).dropLast, hp.2)
  else hp

/-- The method `URL.Hostname`. -/
def URL.Hostname (u : URL) : String := ⟨(splitHostPort u.Host.data).1⟩

/-- The method `URL.Port`. -/
def URL.Port (u : URL) : String := ⟨(splitHostPort u.Host.data).2⟩

/-- The type `url.Values`, a map from keys to lists of values: an association list. -/
abbrev Values := List (String × List String)

/-- The map read `m[key]`: the values of `key`, or the nil slice when `key` is absent. -/
def index (m : Values) (key : String) : List String :=
  match m with
  | [] => []
  | e :: es => if e.1 = key then e.2 else index es key

/-- The map update `m[key] = append(m[key], value)`. -/
def addValue (m : Values) (key value : String) : Values :=
  match m with
  | [] => [(key, [value])]
  | e :: es => if e.1 = key then (e.1, e.2 ++ [value]) :: es else e :: addValue es key value

/-- Split a query at every `&`. -/
def splitAmp : List Char → List (List Char)
  | [] => [[]]
  | c :: cs =>
    if c = '&' then [] :: splitAmp cs
    else
      match splitAmp cs with
      | seg :: segs => (c :: seg) :: segs
      | [] => [[c]]

/-- One round of the loop of `parseQuery`: a `key=value` pair is added to the map; a pair
that is empty, contains a semicolon or has a bad escape is skipped. -/
def parsePair (m : Values) (pair : List Char) : Values :=
  if ';' ∈ pair then m
  else if pair = [] then m
  else
    match unescape .encodeQueryComponent (cut '=' pair).1 with
    | .error _ => m
    | .ok key =>
      match unescape .encodeQueryComponent (cut '=' pair).2.1 with
      | .error _ => m
      | .ok value => addValue m ⟨key⟩ ⟨value⟩

/-- The function `url.ParseQuery`, its error dropped. -/
def ParseQuery (query : String) : Values :=
  (splitAmp query.data).foldl parsePair []

/-- The method `URL.Query`. -/
def URL.Query (u : URL) : Values := ParseQuery u.RawQuery

end url

/-! ## Package `logrus` and the process-wide logging configuration -/

/-- The type `logrus.Level`. -/
inductive Level where
  | PanicLevel
  | FatalLevel
  | ErrorLevel
  | WarnLevel
  | InfoLevel
  | DebugLevel
  | TraceLevel
deriving DecidableEq, Repr

/-- The process-wide logging configuration: the package variable `doLogging` of
`driver.go` and the level of the standard logrus logger. -/
structure LogConfig where
  doLogging : Bool
  level : Level
deriving DecidableEq, Repr

/-- The function `log.SetLevel`. -/
def SetLevel (level : Level) (g : LogConfig) : LogConfig :=
  { g with level := level }

/-- Modelled from the spec: the helper `L(level, text, args...)` is defined outside
`driver.go`; the spec describes the logging sink as an external capability with an "emit
message" operation, so a call of `L` emits a message and leaves the logging configuration
as it is. -/
def L (_level : Level) (g : LogConfig) : LogConfig := g

/-! ## `driver.go` -/

/-- The type `net.Dialer`; `driver.go` never writes the field, it stays the zero value. -/
inductive Dialer where
  | zero
deriving DecidableEq, Repr

/-- The struct `h2connInfo`. -/
structure h2connInfo where
  network : String
  address : String
  database : String
  username : String
  password : String
  isMem : Bool
  logging : Bool
  dialer : Dialer
deriving DecidableEq, Repr

/-- The zero value of `h2connInfo` (`var ci h2connInfo`). -/
def h2connInfo.zero : h2connInfo := ⟨"", "", "", "", "", false, false, .zero⟩

/-- The struct `h2Driver`: its two embedded interface values are never set. -/
inductive h2Driver where
  | mk
deriving DecidableEq, Repr

/-- The struct `h2Connector` (its embedded `driver.Connector` is never set). -/
structure h2Connector where
  ci : h2connInfo
  driver : h2Driver
deriving DecidableEq, Repr

/-- The Go `error` values that occur: the two built in `parseURL` with `errors.Wrapf` and
`errors.Errorf` (format and arguments as written in the source), and any error produced
outside `driver.go`. -/
inductive GoError where
  | Wrapf (cause : url.ParseError) (format : String)
  | Errorf (format : String) (args : List String)
  | external (text : String)
deriving DecidableEq, Repr

/-- How a call ends: it returns a value, or it panics; in both cases with the state it
leaves behind. -/
inductive Outcome (σ α : Type) where
  | returned (val : α) (s : σ)
  | panicked (s : σ)
deriving DecidableEq, Repr

/-- The order in which a `range` statement visits the entries of a map: some permutation
of the entries. -/
structure RangeOrder where
  visit : url.Values → url.Values
  perm : ∀ m, (visit m).Perm m

/-- The range order that visits the keys in the order of their first appearance. -/
def RangeOrder.inOrder : RangeOrder := ⟨fun m => m, fun m => List.Perm.refl m⟩

/-- The range order that visits the keys in the opposite order. -/
def RangeOrder.reversed : RangeOrder := ⟨List.reverse, List.reverse_perm⟩

/-- Lines 100-126 of `parseURL` ("Set host", "Set port", "Set database"): network, address
and database of the descriptor; `none` when the index expression
`u.Query()["database"][0]` panics.  The constant `defaultH2port` is declared outside
`driver.go` and is a parameter. -/
def setHost (defaultH2port : Int) (u : url.URL) (ci : h2connInfo) : Option h2connInfo :=
  let ci := { ci with network := if u.Scheme = "h2" then "tcp" else u.Scheme }
  if ci.network = "unix" then
    let ci := { ci with address := u.Path }
    match url.index u.Query "database" with
    | [] => none
    | d :: _ => some { ci with database := if d.length = 0 then "~/test" else d }
  else
    let host := if u.Hostname.length = 0 then "127.0.0.1" else u.Hostname
    let port := if Atoi u.Port = 0 then defaultH2port else Atoi u.Port
    let ci := { ci with address := host ++ ":" ++ Itoa port }
    some { ci with database := if u.Path.length = 0 then "~/test" else u.Path }

/-- Lines 128-135 of `parseURL` ("Username & password"). -/
def setUser (u : url.URL) (ci : h2connInfo) : h2connInfo :=
  match u.User with
  | none => ci
  | some userinfo =>
    let ci := { ci with username := userinfo.username }
    if userinfo.passwordSet then { ci with password := userinfo.password } else ci

/-- Lines 150-172 of `parseURL`: the switch on the lower-cased logging value.  The case
"warn" has an empty body, and an unlisted value matches no case. -/
def switchLogType (logType : String) (g : LogConfig) : LogConfig :=
  if logType = "none" then { g with doLogging := false }
  else if logType = "info" then SetLevel .InfoLevel { g with doLogging := true }
  else if logType = "debug" then SetLevel .DebugLevel { g with doLogging := true }
  else if logType = "error" then SetLevel .ErrorLevel { g with doLogging := true }
  else if logType = "warn" then g
  else if logType = "warning" then SetLevel .WarnLevel { g with doLogging := true }
  else if logType = "panic" then SetLevel .PanicLevel { g with doLogging := true }
  else if logType = "trace" then SetLevel .TraceLevel { g with doLogging := true }
  else g

/-- The format of the error for an unrecognised query key. -/
def unknownParameterFormat : String :=
  "unknown H2 server connection parameters => \"%s\" : \"%s\""

/-- Lines 137-140 of `parseURL`: the local `val`, the trimmed first value of a key, or
the empty string when the key has no value. -/
def firstValue (v : List String) : String :=
  match v with
  | [] => ""
  | v0 :: _ => TrimSpace v0

/-- Lines 136-180 of `parseURL`: the loop over the query parameters, given in the order
in which they are visited, and the final `return ci, nil`. -/
def rangeQuery (ci : h2connInfo) (g : LogConfig) :
    List (String × List String) → Outcome LogConfig (h2connInfo × Option GoError)
  | [] => .returned (ci, none) g
  | e :: rest =>
    if ToLower e.1 = "mem" then
      if firstValue e.2 = "" ∨ firstValue e.2 = "1" ∨ firstValue e.2 = "yes" ∨
          firstValue e.2 = "true" then
        rangeQuery
          { ci with isMem := true, database := "mem:" ++ Replace1 ci.database '/' "" } g rest
      else rangeQuery { ci with isMem := false } g rest
    else if ToLower e.1 = "logging" then
      match e.2 with
      | [] => .panicked g
      | v0 :: _ => rangeQuery ci (switchLogType (ToLower v0) g) rest
    else if ToLower e.1 = "database" then rangeQuery ci g rest
    else .returned (ci, some (.Errorf unknownParameterFormat [e.1, firstValue e.2])) g

/-- The function `parseURL`: the pair `(h2connInfo, error)` it returns, or a panic, and
the logging configuration afterwards. -/
def parseURL (defaultH2port : Int) (ρ : RangeOrder) (dsnurl : String) (g : LogConfig) :
    Outcome LogConfig (h2connInfo × Option GoError) :=
  let g := L .TraceLevel g
  match url.Parse dsnurl with
  | .error err =>
    .returned (h2connInfo.zero, some (.Wrapf err "failed to parse connection url")) g
  | .ok u =>
    match setHost defaultH2port u h2connInfo.zero with
    | none => .panicked g
    | some ci => rangeQuery (setUser u ci) g (ρ.visit u.Query)

/-- The pair `(driver.Conn, error)` that `Open` and `Connect` return. -/
abbrev ConnResult (Conn : Type) := Option Conn × Option GoError

/-- The method `h2Driver.Open`.  The operation `connect` is defined outside `driver.go`
and is a parameter: it receives the descriptor, may read and change the logging
configuration and the outside world `W`, and returns a pair `(driver.Conn, error)`. -/
def Open {W Conn : Type}
    (connect : h2connInfo → LogConfig × W → ConnResult Conn × (LogConfig × W))
    (defaultH2port : Int) (ρ : RangeOrder) (_h2d : h2Driver) (dsn : String)
    (g : LogConfig) (w : W) : Outcome (LogConfig × W) (ConnResult Conn) :=
  match parseURL defaultH2port ρ dsn g with
  | .panicked g1 => .panicked (g1, w)
  | .returned (ci, err) g1 =>
    let g2 := L .DebugLevel (L .InfoLevel g1)
    match err with
    | some e => .returned (none, some e) (g2, w)
    | none => .returned (connect ci (g2, w)).1 (connect ci (g2, w)).2

/-- The method `h2Driver.OpenConnector`: the pair `(driver.Connector, error)`. -/
def OpenConnector (defaultH2port : Int) (ρ : RangeOrder) (h2d : h2Driver) (dsn : String)
    (g : LogConfig) : Outcome LogConfig (Option h2Connector × Option GoError) :=
  match parseURL defaultH2port ρ dsn (L .DebugLevel g) with
  | .panicked g1 => .panicked g1
  | .returned (ci, err) g1 =>
    match err with
    | some e => .returned (none, some e) g1
    | none => .returned (some ⟨ci, h2d⟩, none) g1

/-- The method `h2Connector.Driver`. -/
def h2Connector.Driver (h2c : h2Connector) (g : LogConfig) : h2Driver × LogConfig :=
  (h2c.driver, L .TraceLevel g)

/-- The method `h2Connector.Connect`: the context `ctx` it receives is not passed on. -/
def h2Connector.Connect {W Conn Ctx : Type}
    (connect : h2connInfo → LogConfig × W → ConnResult Conn × (LogConfig × W))
    (h2c : h2Connector) (_ctx : Ctx) (g : LogConfig) (w : W) :
    ConnResult Conn × (LogConfig × W) :=
  connect h2c.ci (L .DebugLevel g, w)

/-! ## Notions used in the statements -/

/-- A query key is recognised when its lower-cased form is "mem", "logging" or
"database". -/
def recognised (k : String) : Prop :=
  ToLower k = "mem" ∨ ToLower k = "logging" ∨ ToLower k = "database"

instance (k : String) : Decidable (recognised k) := by
  unfold recognised
  infer_instance

/-- The number a text of decimal digits denotes. -/
def decimalValue (ds : List Char) : Nat :=
  ds.foldl (fun n c => n * 10 + (c.toNat - 48)) 0

/-- A connect operation that only counts how often it is invoked and reports an error
that shows the database it was asked for. -/
def countingConnect (ci : h2connInfo) (s : LogConfig × Nat) :
    ConnResult Unit × (LogConfig × Nat) :=
  ((none, some (.external ci.database)), (s.1, s.2 + 1))

/-- The logging configuration of a fresh process: `doLogging` is false and the standard
logrus logger is at its initial level, Info. -/
def LogConfig.initial : LogConfig := ⟨false, .InfoLevel⟩

/-- The state a call leaves behind, however it ends. -/
def Outcome.state {σ α : Type} : Outcome σ α → σ
  | .returned _ s => s
  | .panicked s => s

/-- The effect of one mem key on the descriptor (lines 143-147 of `parseURL`). -/
def applyMem (ci : h2connInfo) (e : String × List String) : h2connInfo :=
  if firstValue e.2 = "" ∨ firstValue e.2 = "1" ∨ firstValue e.2 = "yes" ∨
      firstValue e.2 = "true" then
    { ci with isMem := true, database := "mem:" ++ Replace1 ci.database '/' "" }
  else { ci with isMem := false }

/-- A query entry the loop passes over without any effect: a database key, or a logging
key whose lower-cased first value is none of none, info, debug, error, warning, panic,
trace. -/
def passedOver (e : String × List String) : Prop :=
  ToLower e.1 = "database" ∨
    (ToLower e.1 = "logging" ∧ ∃ v0 vs, e.2 = v0 :: vs ∧ ToLower v0 ≠ "none" ∧
      ToLower v0 ≠ "info" ∧ ToLower v0 ≠ "debug" ∧ ToLower v0 ≠ "error" ∧
      ToLower v0 ≠ "warning" ∧ ToLower v0 ≠ "panic" ∧ ToLower v0 ≠ "trace")

/-- A connect operation in the style the claim on cancellation has in mind, were a context
passed to it: it fails when the context is cancelled.  The context is a Boolean, true for
a cancelled one. -/
def contextConnect (cancelled : Bool) (_ci : h2connInfo) (s : LogConfig × Nat) :
    ConnResult Unit × (LogConfig × Nat) :=
  if cancelled then ((none, some (.external "context canceled")), s)
  else ((some (), none), (s.1, s.2 + 1))

/-! ## Facts about the library model -/

theorem url_addValue_ne_nil (m : url.Values) (k v : String)
    (h : ∀ e ∈ m, e.2 ≠ []) : ∀ e ∈ url.addValue m k v, e.2 ≠ [] := by
  induction m with
  | nil =>
    intro e he
    simp only [url.addValue, List.mem_singleton] at he
    subst he
    simp
  | cons a m ih =>
    intro e he
    simp only [url.addValue] at he
    split at he
    · rcases List.mem_cons.mp he with h1 | h1
      · subst h1
        simp
      · exact h e (List.mem_cons_of_mem _ h1)
    · rcases List.mem_cons.mp he with h1 | h1
      · subst h1
        exact h _ (List.mem_cons_self _ _)
      · exact ih (fun x hx => h x (List.mem_cons_of_mem _ hx)) e h1

theorem url_parsePair_ne_nil (m : url.Values) (pair : List Char)
    (h : ∀ e ∈ m, e.2 ≠ []) : ∀ e ∈ url.parsePair m pair, e.2 ≠ [] := by
  unfold url.parsePair
  split
  · exact h
  · split
    · exact h
    · split
      · exact h
      · split
        · exact h
        · exact url_addValue_ne_nil m _ _ h

theorem url_foldl_parsePair_ne_nil (segs : List (List Char)) (m : url.Values)
    (h : ∀ e ∈ m, e.2 ≠ []) : ∀ e ∈ segs.foldl url.parsePair m, e.2 ≠ [] := by
  induction segs generalizing m with
  | nil => simpa using h
  | cons seg segs ih =>
    simp only [List.foldl_cons]
    exact ih _ (url_parsePair_ne_nil m seg h)

/-- Every key of a parsed query has at least one value. -/
theorem url_Query_ne_nil (u : url.URL) : ∀ e ∈ u.Query, e.2 ≠ [] := by
  unfold url.URL.Query url.ParseQuery
  exact url_foldl_parsePair_ne_nil _ [] (by simp)

theorem RangeOrder.mem_visit (ρ : RangeOrder) (m : url.Values) (e : String × List String) :
    e ∈ ρ.visit m ↔ e ∈ m :=
  (ρ.perm m).mem_iff

theorem RangeOrder.filter_visit (ρ : RangeOrder) (m : url.Values)
    (p : String × List String → Bool) (e : String × List String)
    (h : m.filter p = [e]) : (ρ.visit m).filter p = [e] := by
  have h1 : ((ρ.visit m).filter p).Perm (m.filter p) := (ρ.perm m).filter p
  rw [h] at h1
  exact List.perm_singleton.mp h1

/-! ## Facts about the loop over the query parameters -/

/-- The loop never panics on entries that all carry a value. -/
theorem rangeQuery_returns (l : List (String × List String)) (h : ∀ e ∈ l, e.2 ≠ [])
    (ci : h2connInfo) (g : LogConfig) :
    ∃ ci1 err g1, rangeQuery ci g l = .returned (ci1, err) g1 := by
  induction l generalizing ci g with
  | nil => exact ⟨ci, none, g, rfl⟩
  | cons e rest ih =>
    have hrest : ∀ x ∈ rest, x.2 ≠ [] := fun x hx => h x (List.mem_cons_of_mem _ hx)
    have he : e.2 ≠ [] := h e (List.mem_cons_self _ _)
    rw [rangeQuery]
    split_ifs
    · exact ih hrest _ _
    · exact ih hrest _ _
    · cases hv : e.2 with
      | nil => exact absurd hv he
      | cons v0 vs => exact ih hrest _ _
    · exact ih hrest _ _
    · exact ⟨_, _, _, rfl⟩

/-- The loop leaves network, address, user name and password as they are. -/
theorem rangeQuery_frame (l : List (String × List String)) (ci : h2connInfo) (g : LogConfig)
    (ci1 : h2connInfo) (err : Option GoError) (g1 : LogConfig)
    (h : rangeQuery ci g l = .returned (ci1, err) g1) :
    ci1.network = ci.network ∧ ci1.address = ci.address ∧ ci1.username = ci.username ∧
      ci1.password = ci.password := by
  induction l generalizing ci g with
  | nil =>
    simp only [rangeQuery, Outcome.returned.injEq, Prod.mk.injEq] at h
    obtain ⟨⟨h1, -⟩, -⟩ := h
    subst h1
    exact ⟨rfl, rfl, rfl, rfl⟩
  | cons e rest ih =>
    rw [rangeQuery] at h
    split_ifs at h
    · have h2 := ih _ _ h
      exact h2
    · have h2 := ih _ _ h
      exact h2
    · cases hv : e.2 with
      | nil => rw [hv] at h; cases h
      | cons v0 vs => rw [hv] at h; exact ih _ _ h
    · exact ih _ _ h
    · simp only [Outcome.returned.injEq, Prod.mk.injEq] at h
      obtain ⟨⟨h1, -⟩, -⟩ := h
      subst h1
      exact ⟨rfl, rfl, rfl, rfl⟩

/-- Without a mem key the loop leaves the database and the flag `isMem` as they are. -/
theorem rangeQuery_no_mem (l : List (String × List String))
    (hmem : ∀ e ∈ l, ToLower e.1 ≠ "mem") (ci : h2connInfo) (g : LogConfig)
    (ci1 : h2connInfo) (err : Option GoError) (g1 : LogConfig)
    (h : rangeQuery ci g l = .returned (ci1, err) g1) :
    ci1.database = ci.database ∧ ci1.isMem = ci.isMem := by
  induction l generalizing ci g with
  | nil =>
    simp only [rangeQuery, Outcome.returned.injEq, Prod.mk.injEq] at h
    obtain ⟨⟨h1, -⟩, -⟩ := h
    subst h1
    exact ⟨rfl, rfl⟩
  | cons e rest ih =>
    have hrest : ∀ x ∈ rest, ToLower x.1 ≠ "mem" :=
      fun x hx => hmem x (List.mem_cons_of_mem _ hx)
    have he : ToLower e.1 ≠ "mem" := hmem e (List.mem_cons_self _ _)
    rw [rangeQuery] at h
    rw [if_neg he] at h
    split_ifs at h
    · cases hv : e.2 with
      | nil => rw [hv] at h; cases h
      | cons v0 vs => rw [hv] at h; exact ih hrest _ _ h
    · exact ih hrest _ _ h
    · simp only [Outcome.returned.injEq, Prod.mk.injEq] at h
      obtain ⟨⟨h1, -⟩, -⟩ := h
      subst h1
      exact ⟨rfl, rfl⟩

/-- Without a logging key the loop leaves the logging configuration as it is, however it
ends. -/
theorem rangeQuery_no_logging (l : List (String × List String))
    (hlog : ∀ e ∈ l, ToLower e.1 ≠ "logging") (ci : h2connInfo) (g : LogConfig)
    (ci1 : h2connInfo) (err : Option GoError) (g1 : LogConfig)
    (h : rangeQuery ci g l = .returned (ci1, err) g1) : g1 = g := by
  induction l generalizing ci g with
  | nil =>
    simp only [rangeQuery, Outcome.returned.injEq, Prod.mk.injEq] at h
    exact h.2.symm
  | cons e rest ih =>
    have hrest : ∀ x ∈ rest, ToLower x.1 ≠ "logging" :=
      fun x hx => hlog x (List.mem_cons_of_mem _ hx)
    have he : ToLower e.1 ≠ "logging" := hlog e (List.mem_cons_self _ _)
    rw [rangeQuery] at h
    rw [if_neg he] at h
    split_ifs at h
    · exact ih hrest _ _ h
    · exact ih hrest _ _ h
    · exact ih hrest _ _ h
    · simp only [Outcome.returned.injEq, Prod.mk.injEq] at h
      exact h.2.symm

/-- When the loop ends without error, every key it visited is recognised. -/
theorem rangeQuery_ok_recognised (l : List (String × List String)) (ci : h2connInfo)
    (g : LogConfig) (ci1 : h2connInfo) (g1 : LogConfig)
    (h : rangeQuery ci g l = .returned (ci1, none) g1) : ∀ e ∈ l, recognised e.1 := by
  induction l generalizing ci g with
  | nil => simp
  | cons e rest ih =>
    rw [rangeQuery] at h
    intro x hx
    rcases List.mem_cons.mp hx with hx | hx
    · subst hx
      split_ifs at h with hm _ hl hd
      · exact Or.inl hm
      · exact Or.inl hm
      · exact Or.inr (Or.inl hl)
      · exact Or.inr (Or.inr hd)
      · simp at h
    · split_ifs at h
      · exact ih _ _ h x hx
      · exact ih _ _ h x hx
      · cases hv : e.2 with
        | nil => rw [hv] at h; cases h
        | cons v0 vs => rw [hv] at h; exact ih _ _ h x hx
      · exact ih _ _ h x hx
      · simp at h

/-- When the loop ends with an error, the error carries a key that is not recognised, in
its original spelling, and the trimmed first value of that key. -/
theorem rangeQuery_error (l : List (String × List String)) (ci : h2connInfo)
    (g : LogConfig) (ci1 : h2connInfo) (err : GoError) (g1 : LogConfig)
    (h : rangeQuery ci g l = .returned (ci1, some err) g1) :
    ∃ e ∈ l, ¬ recognised e.1 ∧ err = .Errorf unknownParameterFormat [e.1, firstValue e.2] := by
  induction l generalizing ci g with
  | nil => simp [rangeQuery] at h
  | cons e rest ih =>
    rw [rangeQuery] at h
    have lift : (∃ x ∈ rest, ¬ recognised x.1 ∧
        err = .Errorf unknownParameterFormat [x.1, firstValue x.2]) →
        ∃ x ∈ e :: rest, ¬ recognised x.1 ∧
          err = .Errorf unknownParameterFormat [x.1, firstValue x.2] := by
      rintro ⟨x, hx, hr⟩
      exact ⟨x, List.mem_cons_of_mem _ hx, hr⟩
    split_ifs at h with hm _ hl hd
    · exact lift (ih _ _ h)
    · exact lift (ih _ _ h)
    · cases hv : e.2 with
      | nil => rw [hv] at h; cases h
      | cons v0 vs => rw [hv] at h; exact lift (ih _ _ h)
    · exact lift (ih _ _ h)
    · simp only [Outcome.returned.injEq, Prod.mk.injEq, Option.some.injEq] at h
      refine ⟨e, List.mem_cons_self _ _, ?_, h.1.2.symm⟩
      rintro (h1 | h1 | h1)
      · exact hm h1
      · exact hl h1
      · exact hd h1

/-- When every key is recognised and carries a value, the loop ends without error. -/
theorem rangeQuery_recognised_ok (l : List (String × List String))
    (hval : ∀ e ∈ l, e.2 ≠ []) (hrec : ∀ e ∈ l, recognised e.1) (ci : h2connInfo)
    (g : LogConfig) : ∃ ci1 g1, rangeQuery ci g l = .returned (ci1, none) g1 := by
  obtain ⟨ci1, err, g1, h⟩ := rangeQuery_returns l hval ci g
  cases err with
  | none => exact ⟨ci1, g1, h⟩
  | some err =>
    obtain ⟨e, he, hn, -⟩ := rangeQuery_error l ci g ci1 err g1 h
    exact absurd (hrec e he) hn

/-! ## Facts about `parseURL` before the loop -/

theorem parseURL_of_parse (defaultH2port : Int) (ρ : RangeOrder) (dsn : String)
    (g : LogConfig) (u : url.URL) (h : url.Parse dsn = .ok u) :
    parseURL defaultH2port ρ dsn g =
      match setHost defaultH2port u h2connInfo.zero with
      | none => .panicked g
      | some ci => rangeQuery (setUser u ci) g (ρ.visit u.Query) := by
  simp only [parseURL, L, h]

theorem network_eq_unix_iff (scheme : String) :
    (if scheme = "h2" then "tcp" else scheme) = "unix" ↔ scheme = "unix" := by
  by_cases h : scheme = "h2"
  · subst h
    decide
  · simp [h]

/-- For a scheme other than unix, lines 110-125 fill in address and database from host,
port and path. -/
theorem setHost_tcp (defaultH2port : Int) (u : url.URL) (ci : h2connInfo)
    (h : u.Scheme ≠ "unix") :
    setHost defaultH2port u ci = some
      { ci with
        network := if u.Scheme = "h2" then "tcp" else u.Scheme
        address := (if u.Hostname.length = 0 then "127.0.0.1" else u.Hostname) ++ ":" ++
          Itoa (if Atoi u.Port = 0 then defaultH2port else Atoi u.Port)
        database := if u.Path.length = 0 then "~/test" else u.Path } := by
  have h1 : ¬ (if u.Scheme = "h2" then "tcp" else u.Scheme) = "unix" :=
    fun hc => h ((network_eq_unix_iff _).mp hc)
  simp only [setHost, h1, if_false]

/-- For the scheme unix, lines 105-108 take the address from the path and the database
from the first value of the key "database"; the index expression panics when the key is
absent. -/
theorem setHost_unix (defaultH2port : Int) (u : url.URL) (ci : h2connInfo)
    (h : u.Scheme = "unix") :
    setHost defaultH2port u ci =
      match url.index u.Query "database" with
      | [] => none
      | d :: _ => some
        { ci with
          network := "unix"
          address := u.Path
          database := if d.length = 0 then "~/test" else d } := by
  have h1 : (if u.Scheme = "h2" then "tcp" else u.Scheme) = "unix" :=
    (network_eq_unix_iff _).mpr h
  simp only [setHost, h1, if_true]

theorem setUser_frame (u : url.URL) (ci : h2connInfo) :
    (setUser u ci).network = ci.network ∧ (setUser u ci).address = ci.address ∧
      (setUser u ci).database = ci.database ∧ (setUser u ci).isMem = ci.isMem := by
  unfold setUser
  cases u.User with
  | none => exact ⟨rfl, rfl, rfl, rfl⟩
  | some info =>
    by_cases hp : info.passwordSet = true
    · simp [hp]
    · simp [hp]

theorem url_index_absent (m : url.Values) (key : String) (h : ∀ e ∈ m, e.1 ≠ key) :
    url.index m key = [] := by
  induction m with
  | nil => rfl
  | cons e m ih =>
    have he : e.1 ≠ key := h e (List.mem_cons_self _ _)
    simp only [url.index, he, if_false]
    exact ih (fun x hx => h x (List.mem_cons_of_mem _ hx))

theorem url_index_filter (m : url.Values) (key : String) (p : String × List String → Bool)
    (h : ∀ e ∈ m, e.1 = key → p e = true) :
    url.index (m.filter p) key = url.index m key := by
  induction m with
  | nil => rfl
  | cons e m ih =>
    have ih1 := ih (fun x hx => h x (List.mem_cons_of_mem _ hx))
    by_cases hk : e.1 = key
    · have hp : p e = true := h e (List.mem_cons_self _ _) hk
      simp only [List.filter_cons, hp, if_true, url.index, hk]
    · by_cases hp : p e = true
      · simp only [List.filter_cons, hp, if_true, url.index, hk, if_false]
        exact ih1
      · simp only [List.filter_cons, hp, url.index, hk, if_false]
        exact ih1

theorem foldl_digits_ge (ds : List Char) (n : Nat) :
    n ≤ ds.foldl (fun n c => n * 10 + (c.toNat - 48)) n := by
  induction ds generalizing n with
  | nil => exact Nat.le_refl n
  | cons c cs ih =>
    simp only [List.foldl_cons]
    exact Nat.le_trans (by omega) (ih _)

/-- On digits whose value stays below 2^63 the loop of `ParseUint` computes that value. -/
theorem parseUintLoop_digits (ds : List Char) (n : Nat) (hd : ds.all isDigit = true)
    (hfit : ds.foldl (fun n c => n * 10 + (c.toNat - 48)) n < 2 ^ 63) :
    parseUintLoop ds n = some (ds.foldl (fun n c => n * 10 + (c.toNat - 48)) n, false) := by
  induction ds generalizing n with
  | nil => rfl
  | cons c cs ih =>
    simp only [List.all_cons, Bool.and_eq_true] at hd
    simp only [List.foldl_cons] at hfit ⊢
    have hge := foldl_digits_ge cs (n * 10 + (c.toNat - 48))
    have h1 : ¬ n ≥ maxUint64 / 10 + 1 := by
      simp only [maxUint64]
      omega
    have h2 : ¬ n * 10 + (c.toNat - 48) > maxUint64 := by
      simp only [maxUint64]
      omega
    rw [parseUintLoop]
    simp only [hd.1, if_true, h1, h2, if_false]
    exact ih _ hd.2 hfit

theorem isDigit_ne_sign (c : Char) (h : isDigit c = true) : c ≠ '-' ∧ c ≠ '+' := by
  constructor
  · rintro rfl
    exact absurd h (by decide)
  · rintro rfl
    exact absurd h (by decide)

/-- On a text of digits whose value is below 2^63, `Atoi` returns that value. -/
theorem Atoi_digits (s : String) (hd : s.data.all isDigit = true)
    (hfit : decimalValue s.data < 2 ^ 63) : Atoi s = (decimalValue s.data : Int) := by
  unfold Atoi
  cases hs : s.data with
  | nil => simp [decimalValue]
  | cons c cs =>
    rw [hs] at hd hfit
    have hc : isDigit c = true := by
      simp only [List.all_cons, Bool.and_eq_true] at hd
      exact hd.1
    obtain ⟨hm, hp⟩ := isDigit_ne_sign c hc
    have hloop := parseUintLoop_digits (c :: cs) 0 hd hfit
    have hlt : ¬ (decimalValue (c :: cs) ≥ 2 ^ 63) := by
      simpa using hfit
    have hlt2 : ¬ (List.foldl (fun n c => n * 10 + (c.toNat - 48)) 0 (c :: cs) ≥ 2 ^ 63) :=
      hlt
    simp only [hm, hp, or_self, if_false, hloop, decimalValue, ne_eq, not_false_eq_true,
      true_and, hlt2, false_and, reduceCtorEq]

theorem validOptionalPort_digits (p : List Char) (h : url.validOptionalPort (':' :: p) = true) :
    p.all isDigit = true := by
  simpa [url.validOptionalPort] using h

theorem splitHostPort_digits (hostPort : List Char) :
    (url.splitHostPort hostPort).2.all isDigit = true := by
  have key : (match splitLast ':' hostPort with
      | some (h, p) => if url.validOptionalPort (':' :: p) then (h, p) else (hostPort, [])
      | none => (hostPort, [])).2.all isDigit = true := by
    split
    · split_ifs with hv
      · exact validOptionalPort_digits _ hv
      · rfl
    · rfl
  unfold url.splitHostPort
  dsimp only
  split_ifs
  · exact key
  · exact key

/-- The port of a URL consists of digits only. -/
theorem url_Port_digits (u : url.URL) : u.Port.data.all isDigit = true :=
  splitHostPort_digits u.Host.data

/-! ## A single mem key, a single logging key -/

theorem filter_eq_nil_not (l : List (String × List String)) (key : String)
    (h : l.filter (fun x => decide (ToLower x.1 = key)) = []) :
    ∀ x ∈ l, ToLower x.1 ≠ key := by
  intro x hx hk
  have : x ∈ l.filter (fun x => decide (ToLower x.1 = key)) :=
    List.mem_filter.mpr ⟨hx, by simpa using hk⟩
  rw [h] at this
  exact absurd this (List.not_mem_nil x)

/-- With exactly one logging key, a loop that ends without error applies the switch on
the lower-cased first value of that key once. -/
theorem rangeQuery_one_logging (l : List (String × List String))
    (e : String × List String) (v0 : String) (vs : List String)
    (hone : l.filter (fun x => decide (ToLower x.1 = "logging")) = [e])
    (hv : e.2 = v0 :: vs)
    (ci : h2connInfo) (g : LogConfig) (ci1 : h2connInfo) (g1 : LogConfig)
    (h : rangeQuery ci g l = .returned (ci1, none) g1) :
    g1 = switchLogType (ToLower v0) g := by
  induction l generalizing ci g with
  | nil => simp at hone
  | cons x rest ih =>
    rw [rangeQuery] at h
    by_cases hl : ToLower x.1 = "logging"
    · have hd : decide (ToLower x.1 = "logging") = true := by simpa using hl
      rw [List.filter_cons, hd, if_pos rfl] at hone
      have hx : x = e := (List.cons.inj hone).1
      have hrest := filter_eq_nil_not rest "logging" (List.cons.inj hone).2
      subst hx
      have hm : ToLower x.1 ≠ "mem" := by
        rw [hl]
        decide
      rw [if_neg hm, if_pos hl, hv] at h
      exact rangeQuery_no_logging rest hrest _ _ _ _ _ h
    · have hd : decide (ToLower x.1 = "logging") = false := by simpa using hl
      rw [List.filter_cons, hd] at hone
      rw [if_neg hl] at h
      split_ifs at h
      · exact ih hone _ _ h
      · exact ih hone _ _ h
      · exact ih hone _ _ h
      · simp at h

theorem String_length_eq_zero_iff (s : String) : s.length = 0 ↔ s = "" := by
  cases s with
  | mk d =>
    cases d with
    | nil => exact ⟨fun _ => rfl, fun _ => rfl⟩
    | cons c cs =>
      constructor
      · intro h
        simp [String.length] at h
      · intro h
        exact absurd (congrArg String.data h) (by simp)

/-! ## The claims -/

/-- C1: for every DSN and every connect operation, when `parseURL` fails `Open` returns
`(nil, err)` with that same error and the outside world is as before, so connect was not
invoked; when `parseURL` succeeds with descriptor `ci`, `Open` returns the pair and the
state that `connect ci` produces, unchanged. -/
theorem Open_parse_error_or_connect {W Conn : Type}
    (connect : h2connInfo → LogConfig × W → ConnResult Conn × (LogConfig × W))
    (defaultH2port : Int) (ρ : RangeOrder) (h2d : h2Driver) (dsn : String)
    (g : LogConfig) (w : W) :
    (∀ ci err g1, parseURL defaultH2port ρ dsn g = .returned (ci, some err) g1 →
      Open connect defaultH2port ρ h2d dsn g w = .returned (none, some err) (g1, w)) ∧
    (∀ ci g1, parseURL defaultH2port ρ dsn g = .returned (ci, none) g1 →
      Open connect defaultH2port ρ h2d dsn g w =
        .returned (connect ci (g1, w)).1 (connect ci (g1, w)).2) := by
  constructor
  · intro ci err g1 h
    simp only [Open, h, L]
  · intro ci g1 h
    simp only [Open, h, L]

/-- C1 at concrete inputs, with a connect operation that counts its invocations: the DSN
":foo" does not parse and the count stays 0; "h2://host/db" parses and `Open` returns what
connect returns, the count being 1. -/
theorem Open_parse_error_or_connect_witness :
    Open countingConnect 9092 .inOrder .mk ":foo" .initial 0 =
      .returned (none, some (.Wrapf .missingProtocolScheme "failed to parse connection url"))
        (.initial, 0) ∧
    Open countingConnect 9092 .inOrder .mk "h2://host/db" .initial 0 =
      .returned (none, some (.external "/db")) (.initial, 1) :=
  ⟨(Open_parse_error_or_connect countingConnect 9092 .inOrder .mk ":foo" .initial 0).1
      h2connInfo.zero _ .initial rfl,
    (Open_parse_error_or_connect countingConnect 9092 .inOrder .mk "h2://host/db"
      .initial 0).2 ⟨"tcp", "host:9092", "/db", "", "", false, false, .zero⟩ .initial rfl⟩

/-- C2 as stated fails: "h2://host:1234/mydb" parses to network "tcp", address "host:1234"
and database "/mydb", the path with its leading separator, not "mydb". -/
theorem parseURL_database_keeps_separator :
    parseURL 9092 .inOrder "h2://host:1234/mydb" .initial =
      .returned (⟨"tcp", "host:1234", "/mydb", "", "", false, false, .zero⟩, none) .initial ∧
    ("/mydb" : String) ≠ "mydb" := by
  decide

/-- C2 (amended): for every DSN of scheme h2 or tcp whose URL path is "/" followed by a
name and which carries no mem parameter, `parseURL` returns a descriptor whose network is
"tcp" and whose database is the URL path as it is, the leading separator included. -/
theorem parseURL_tcp_database_is_path (defaultH2port : Int) (ρ : RangeOrder) (dsn : String)
    (g : LogConfig) (u : url.URL) (name : String)
    (hparse : url.Parse dsn = .ok u) (hscheme : u.Scheme = "h2" ∨ u.Scheme = "tcp")
    (hpath : u.Path = "/" ++ name) (hmem : ∀ e ∈ u.Query, ToLower e.1 ≠ "mem") :
    ∃ ci err g1, parseURL defaultH2port ρ dsn g = .returned (ci, err) g1 ∧
      ci.network = "tcp" ∧ ci.database = "/" ++ name := by
  have hunix : u.Scheme ≠ "unix" := by
    rcases hscheme with h | h <;> rw [h] <;> decide
  have hnet : (if u.Scheme = "h2" then "tcp" else u.Scheme) = "tcp" := by
    rcases hscheme with h | h <;> rw [h] <;> decide
  have hlen : ¬ u.Path.length = 0 := by
    rw [hpath, String.length_append]
    have : ("/" : String).length = 1 := by decide
    omega
  rw [parseURL_of_parse _ _ _ _ _ hparse, setHost_tcp _ _ _ hunix]
  obtain ⟨ci, err, g1, h⟩ :=
    rangeQuery_returns (ρ.visit u.Query)
      (fun e he => url_Query_ne_nil u e ((ρ.mem_visit _ _).mp he)) (setUser u _) g
  refine ⟨ci, err, g1, h, ?_, ?_⟩
  · rw [(rangeQuery_frame _ _ _ _ _ _ h).1, (setUser_frame u _).1]
    exact hnet
  · have hm := rangeQuery_no_mem (ρ.visit u.Query)
      (fun e he => hmem e ((ρ.mem_visit _ _).mp he)) _ _ _ _ _ h
    rw [hm.1, (setUser_frame u _).2.2.1]
    simp only [hlen, if_false]
    exact hpath

/-- C2 (amended) at "h2://host:1234/mydb": the database is "/mydb". -/
theorem parseURL_tcp_database_is_path_witness :
    url.Parse "h2://host:1234/mydb" = .ok ⟨"h2", "", none, "host:1234", "/mydb", "", ""⟩ ∧
    ∃ ci err g1, parseURL 9092 .inOrder "h2://host:1234/mydb" .initial =
        .returned (ci, err) g1 ∧ ci.network = "tcp" ∧ ci.database = "/" ++ "mydb" :=
  ⟨rfl, parseURL_tcp_database_is_path 9092 .inOrder "h2://host:1234/mydb" .initial
    ⟨"h2", "", none, "host:1234", "/mydb", "", ""⟩ "mydb" rfl (Or.inl rfl) rfl
    (by decide)⟩

/-- C3 as stated fails: "http://host/db" parses successfully and the network of the
descriptor is "http", neither "tcp" nor "unix". -/
theorem parseURL_network_other_scheme :
    parseURL 9092 .inOrder "http://host/db" .initial =
      .returned (⟨"http", "host:9092", "/db", "", "", false, false, .zero⟩, none) .initial ∧
    ("http" : String) ≠ "tcp" ∧ ("http" : String) ≠ "unix" := by
  decide

/-- C3 (amended): for every DSN that `parseURL` parses successfully, scheme h2 or tcp gives
network "tcp", scheme unix gives network "unix", and every scheme other than h2 is copied
to the network as it is (so "http" gives "http" and the empty scheme gives ""). -/
theorem parseURL_network (defaultH2port : Int) (ρ : RangeOrder) (dsn : String)
    (g : LogConfig) (u : url.URL) (ci : h2connInfo) (g1 : LogConfig)
    (hparse : url.Parse dsn = .ok u)
    (hret : parseURL defaultH2port ρ dsn g = .returned (ci, none) g1) :
    (u.Scheme = "h2" ∨ u.Scheme = "tcp" → ci.network = "tcp") ∧
    (u.Scheme = "unix" → ci.network = "unix") ∧
    (u.Scheme ≠ "h2" → ci.network = u.Scheme) := by
  have key : ci.network = if u.Scheme = "h2" then "tcp" else u.Scheme := by
    rw [parseURL_of_parse _ _ _ _ _ hparse] at hret
    by_cases hunix : u.Scheme = "unix"
    · rw [setHost_unix _ _ _ hunix] at hret
      cases hq : url.index u.Query "database" with
      | nil => rw [hq] at hret; cases hret
      | cons d ds =>
        rw [hq] at hret
        rw [(rangeQuery_frame _ _ _ _ _ _ hret).1, (setUser_frame u _).1, hunix]
        exact (if_neg (by decide)).symm
    · rw [setHost_tcp _ _ _ hunix] at hret
      rw [(rangeQuery_frame _ _ _ _ _ _ hret).1, (setUser_frame u _).1]
  refine ⟨?_, ?_, ?_⟩
  · rintro (h | h) <;> rw [key, h] <;> decide
  · intro h
    rw [key, h]
    decide
  · intro h
    rw [key, if_neg h]

/-- C3 (amended) at "http://host/db": the network is the scheme, "http". -/
theorem parseURL_network_witness :
    url.Parse "http://host/db" = .ok ⟨"http", "", none, "host", "/db", "", ""⟩ ∧
    parseURL 9092 .inOrder "http://host/db" .initial =
      .returned (⟨"http", "host:9092", "/db", "", "", false, false, .zero⟩, none) .initial ∧
    (⟨"http", "host:9092", "/db", "", "", false, false, .zero⟩ : h2connInfo).network =
      "http" :=
  ⟨rfl, rfl, (parseURL_network 9092 .inOrder "http://host/db" .initial
    ⟨"http", "", none, "host", "/db", "", ""⟩ _ .initial rfl rfl).2.2 (by decide)⟩

/-- C4 as stated fails: the port of "h2://host:9223372036854775808/db" denotes the number
2^63, and the address is "host:9223372036854775807", whose port part is not the decimal
rendering of that number. -/
theorem parseURL_port_saturates :
    ∃ u ci, url.Parse "h2://host:9223372036854775808/db" = .ok u ∧ u.Scheme ≠ "unix" ∧
      decimalValue u.Port.data = 9223372036854775808 ∧
      parseURL 9092 .inOrder "h2://host:9223372036854775808/db" .initial =
        .returned (ci, none) .initial ∧
      ci.address = "host:9223372036854775807" ∧
      ci.address ≠ u.Hostname ++ ":" ++ Nat.repr (decimalValue u.Port.data) :=
  ⟨⟨"h2", "", none, "host:9223372036854775808", "/db", "", ""⟩,
    ⟨"tcp", "host:9223372036854775807", "/db", "", "", false, false, .zero⟩,
    rfl, by decide, by decide, by decide, rfl, by decide⟩

/-- C4 (amended): for every DSN of a scheme other than unix that parses successfully and
whose port denotes a number below 2^63, the address is H, a colon and P, where H is the URL
host name, or "127.0.0.1" when the host name is empty, and P is the decimal rendering of
the number the port denotes, or of `defaultH2port` when the port is absent or denotes
zero. -/
theorem parseURL_tcp_address (defaultH2port : Int) (ρ : RangeOrder) (dsn : String)
    (g : LogConfig) (u : url.URL) (ci : h2connInfo) (g1 : LogConfig)
    (hparse : url.Parse dsn = .ok u) (hscheme : u.Scheme ≠ "unix")
    (hret : parseURL defaultH2port ρ dsn g = .returned (ci, none) g1)
    (hfit : decimalValue u.Port.data < 2 ^ 63) :
    ci.address = (if u.Hostname = "" then "127.0.0.1" else u.Hostname) ++ ":" ++
      Itoa (if decimalValue u.Port.data = 0 then defaultH2port
        else (decimalValue u.Port.data : Int)) := by
  rw [parseURL_of_parse _ _ _ _ _ hparse, setHost_tcp _ _ _ hscheme] at hret
  rw [(rangeQuery_frame _ _ _ _ _ _ hret).2.1, (setUser_frame u _).2.1]
  have hat := Atoi_digits u.Port (url_Port_digits u) hfit
  simp only [hat, String_length_eq_zero_iff, Int.natCast_eq_zero]

/-- C4 (amended) at "h2://host:0/db" and "h2:///mydb" with 9092 for `defaultH2port`: the
port denotes zero, respectively is absent, and the addresses are "host:9092" and
"127.0.0.1:9092". -/
theorem parseURL_tcp_address_witness :
    url.Parse "h2://host:0/db" = .ok ⟨"h2", "", none, "host:0", "/db", "", ""⟩ ∧
    parseURL 9092 .inOrder "h2://host:0/db" .initial =
      .returned (⟨"tcp", "host:9092", "/db", "", "", false, false, .zero⟩, none) .initial ∧
    (⟨"tcp", "host:9092", "/db", "", "", false, false, .zero⟩ : h2connInfo).address =
      "host" ++ ":" ++ Itoa 9092 ∧
    url.Parse "h2:///mydb" = .ok ⟨"h2", "", none, "", "/mydb", "", ""⟩ ∧
    parseURL 9092 .inOrder "h2:///mydb" .initial =
      .returned (⟨"tcp", "127.0.0.1:9092", "/mydb", "", "", false, false, .zero⟩, none)
        .initial ∧
    (⟨"tcp", "127.0.0.1:9092", "/mydb", "", "", false, false, .zero⟩ : h2connInfo).address =
      "127.0.0.1" ++ ":" ++ Itoa 9092 :=
  ⟨rfl, rfl, parseURL_tcp_address 9092 .inOrder "h2://host:0/db" .initial
    ⟨"h2", "", none, "host:0", "/db", "", ""⟩ _ .initial rfl (by decide) rfl (by decide),
    rfl, rfl, parseURL_tcp_address 9092 .inOrder "h2:///mydb" .initial
    ⟨"h2", "", none, "", "/mydb", "", ""⟩ _ .initial rfl (by decide) rfl (by decide)⟩

/-- C5, the code at the failing input: for every DSN of scheme unix whose query has no key
"database", the index expression `u.Query()["database"][0]` panics, so `parseURL` does not
return and no default database is filled in. -/
theorem parseURL_unix_without_database_panics (defaultH2port : Int) (ρ : RangeOrder)
    (dsn : String) (g : LogConfig) (u : url.URL)
    (hparse : url.Parse dsn = .ok u) (hscheme : u.Scheme = "unix")
    (habsent : ∀ e ∈ u.Query, e.1 ≠ "database") :
    parseURL defaultH2port ρ dsn g = .panicked g := by
  rw [parseURL_of_parse _ _ _ _ _ hparse, setHost_unix _ _ _ hscheme,
    url_index_absent _ _ habsent]

/-- C5 at "unix:///tmp/sock": `parseURL` panics. -/
theorem parseURL_unix_without_database_panics_witness :
    url.Parse "unix:///tmp/sock" = .ok ⟨"unix", "", none, "", "/tmp/sock", "", ""⟩ ∧
    parseURL 9092 .inOrder "unix:///tmp/sock" .initial = .panicked .initial :=
  ⟨rfl, parseURL_unix_without_database_panics 9092 .inOrder "unix:///tmp/sock" .initial
    ⟨"unix", "", none, "", "/tmp/sock", "", ""⟩ rfl rfl (by decide)⟩

theorem rangeQuery_database_only (ci : h2connInfo) (g : LogConfig) (v : List String) :
    rangeQuery ci g [("database", v)] = .returned (ci, none) g := by
  have h1 : ¬ ToLower "database" = "mem" := by decide
  have h2 : ¬ ToLower "database" = "logging" := by decide
  have h3 : ToLower "database" = "database" := by decide
  rw [rangeQuery, if_neg h1, if_neg h2, if_pos h3, rangeQuery]

/-- C6: for every DSN of scheme unix with URL path p whose query consists of the key
"database" alone, with a non-empty first value d, `parseURL` succeeds with network "unix",
address p as it is and database d, and leaves the logging configuration as it was. -/
theorem parseURL_unix_database (defaultH2port : Int) (ρ : RangeOrder) (dsn : String)
    (g : LogConfig) (u : url.URL) (d : String) (vs : List String)
    (hparse : url.Parse dsn = .ok u) (hscheme : u.Scheme = "unix")
    (hquery : u.Query = [("database", d :: vs)]) (hd : d ≠ "") :
    ∃ ci, parseURL defaultH2port ρ dsn g = .returned (ci, none) g ∧
      ci.network = "unix" ∧ ci.address = u.Path ∧ ci.database = d := by
  have hvis : ρ.visit u.Query = [("database", d :: vs)] := by
    have hp := ρ.perm u.Query
    rw [hquery] at hp
    rw [hquery]
    exact List.perm_singleton.mp hp
  have hidx : url.index u.Query "database" = d :: vs := by
    rw [hquery]
    simp [url.index]
  have hlen : ¬ d.length = 0 := fun h => hd ((String_length_eq_zero_iff d).mp h)
  rw [parseURL_of_parse _ _ _ _ _ hparse, setHost_unix _ _ _ hscheme, hidx]
  simp only [hvis, rangeQuery_database_only]
  refine ⟨_, rfl, ?_, ?_, ?_⟩
  · rw [(setUser_frame u _).1]
  · rw [(setUser_frame u _).2.1]
  · rw [(setUser_frame u _).2.2.1]
    simp only [hlen, if_false]

/-- C6 at "unix:///tmp/sock?database=foo": the address is "/tmp/sock" and the database is
"foo". -/
theorem parseURL_unix_database_witness :
    url.Parse "unix:///tmp/sock?database=foo" =
      .ok ⟨"unix", "", none, "", "/tmp/sock", "database=foo", ""⟩ ∧
    ∃ ci, parseURL 9092 .inOrder "unix:///tmp/sock?database=foo" .initial =
        .returned (ci, none) .initial ∧
      ci.network = "unix" ∧ ci.address = "/tmp/sock" ∧ ci.database = "foo" :=
  ⟨rfl, parseURL_unix_database 9092 .inOrder "unix:///tmp/sock?database=foo" .initial
    ⟨"unix", "", none, "", "/tmp/sock", "database=foo", ""⟩ "foo" [] rfl rfl (by decide)
    (by decide)⟩

/-- C7: for every well-formed DSN of a scheme other than unix, `parseURL` returns (it does
not panic); it returns an error if and only if the query has a key whose lower-cased form
is none of "mem", "logging", "database"; and the error it returns carries one such key in
its original spelling together with the trimmed first value of that key. -/
theorem parseURL_fails_iff_unrecognised (defaultH2port : Int) (ρ : RangeOrder)
    (dsn : String) (g : LogConfig) (u : url.URL)
    (hparse : url.Parse dsn = .ok u) (hscheme : u.Scheme ≠ "unix") :
    (∃ ci err g1, parseURL defaultH2port ρ dsn g = .returned (ci, err) g1) ∧
    ((∃ ci err g1, parseURL defaultH2port ρ dsn g = .returned (ci, some err) g1) ↔
      ∃ e ∈ u.Query, ¬ recognised e.1) ∧
    (∀ ci err g1, parseURL defaultH2port ρ dsn g = .returned (ci, some err) g1 →
      ∃ e ∈ u.Query, ¬ recognised e.1 ∧ ∃ v0 vs, e.2 = v0 :: vs ∧
        err = .Errorf unknownParameterFormat [e.1, TrimSpace v0]) := by
  have hval : ∀ e ∈ ρ.visit u.Query, e.2 ≠ [] :=
    fun e he => url_Query_ne_nil u e ((ρ.mem_visit _ _).mp he)
  rw [parseURL_of_parse _ _ _ _ _ hparse, setHost_tcp _ _ _ hscheme]
  simp only
  have hret := rangeQuery_returns (ρ.visit u.Query) hval
  have herr : ∀ ci0 ci err g1,
      rangeQuery ci0 g (ρ.visit u.Query) = .returned (ci, some err) g1 →
      ∃ e ∈ u.Query, ¬ recognised e.1 ∧ ∃ v0 vs, e.2 = v0 :: vs ∧
        err = .Errorf unknownParameterFormat [e.1, TrimSpace v0] := by
    intro ci0 ci err g1 h
    obtain ⟨e, he, hn, hE⟩ := rangeQuery_error _ _ _ _ _ _ h
    have he2 : e ∈ u.Query := (ρ.mem_visit _ _).mp he
    refine ⟨e, he2, hn, ?_⟩
    cases hv : e.2 with
    | nil => exact absurd hv (url_Query_ne_nil u e he2)
    | cons v0 vs =>
      refine ⟨v0, vs, rfl, ?_⟩
      rw [hE, hv]
      rfl
  refine ⟨hret _ g, ⟨?_, ?_⟩, fun ci err g1 h => herr _ ci err g1 h⟩
  · rintro ⟨ci, err, g1, h⟩
    obtain ⟨e, he, hn, -⟩ := herr _ ci err g1 h
    exact ⟨e, he, hn⟩
  · rintro ⟨e, he, hn⟩
    obtain ⟨ci, err, g1, h⟩ := hret (setUser u _) g
    cases err with
    | some err => exact ⟨ci, err, g1, h⟩
    | none =>
      exact absurd (rangeQuery_ok_recognised _ _ _ _ _ h e ((ρ.mem_visit _ _).mpr he)) hn

/-- C7 at "h2://host/db?bogus=1": `parseURL` fails and the error carries the key "bogus"
and the value "1". -/
theorem parseURL_fails_iff_unrecognised_witness :
    url.Parse "h2://host/db?bogus=1" = .ok ⟨"h2", "", none, "host", "/db", "bogus=1", ""⟩ ∧
    parseURL 9092 .inOrder "h2://host/db?bogus=1" .initial =
      .returned (⟨"tcp", "host:9092", "/db", "", "", false, false, .zero⟩,
        some (.Errorf unknownParameterFormat ["bogus", "1"])) .initial ∧
    ((∃ ci err g1, parseURL 9092 .inOrder "h2://host/db?bogus=1" .initial =
        .returned (ci, some err) g1) ↔
      ∃ e ∈ (⟨"h2", "", none, "host", "/db", "bogus=1", ""⟩ : url.URL).Query,
        ¬ recognised e.1) :=
  ⟨rfl, rfl, (parseURL_fails_iff_unrecognised 9092 .inOrder "h2://host/db?bogus=1" .initial
    ⟨"h2", "", none, "host", "/db", "bogus=1", ""⟩ rfl (by decide)).2.1⟩

/-- Lines 100-126 read the URL only through scheme, host, path and the values of the key
"database". -/
theorem setHost_congr (defaultH2port : Int) (u u1 : url.URL) (ci : h2connInfo)
    (hs : u1.Scheme = u.Scheme) (hh : u1.Host = u.Host) (hp : u1.Path = u.Path)
    (hq : url.index u1.Query "database" = url.index u.Query "database") :
    setHost defaultH2port u1 ci = setHost defaultH2port u ci := by
  simp only [setHost, url.URL.Hostname, url.URL.Port, hs, hh, hp, hq]

theorem setUser_congr (u u1 : url.URL) (ci : h2connInfo) (h : u1.User = u.User) :
    setUser u1 ci = setUser u ci := by
  simp only [setUser, h]

/-- C9: for every DSN that parses successfully and has exactly one logging key (in any
letter case), with lower-cased first value L: for L "none" the flag `doLogging` is false
afterwards and the level is the one before; for L one of info, debug, error, warning,
panic, trace the flag is true afterwards and the level is Info, Debug, Error, Warn, Panic,
Trace respectively, whatever the configuration was before. -/
theorem parseURL_logging (defaultH2port : Int) (ρ : RangeOrder) (dsn : String)
    (g : LogConfig) (u : url.URL) (e : String × List String) (v0 : String)
    (vs : List String) (ci : h2connInfo) (g1 : LogConfig)
    (hparse : url.Parse dsn = .ok u)
    (hone : u.Query.filter (fun x => decide (ToLower x.1 = "logging")) = [e])
    (hv : e.2 = v0 :: vs)
    (hret : parseURL defaultH2port ρ dsn g = .returned (ci, none) g1) :
    (ToLower v0 = "none" → g1.doLogging = false ∧ g1.level = g.level) ∧
    (ToLower v0 = "info" → g1 = ⟨true, .InfoLevel⟩) ∧
    (ToLower v0 = "debug" → g1 = ⟨true, .DebugLevel⟩) ∧
    (ToLower v0 = "error" → g1 = ⟨true, .ErrorLevel⟩) ∧
    (ToLower v0 = "warning" → g1 = ⟨true, .WarnLevel⟩) ∧
    (ToLower v0 = "panic" → g1 = ⟨true, .PanicLevel⟩) ∧
    (ToLower v0 = "trace" → g1 = ⟨true, .TraceLevel⟩) := by
  rw [parseURL_of_parse _ _ _ _ _ hparse] at hret
  cases hc : setHost defaultH2port u h2connInfo.zero with
  | none => rw [hc] at hret; cases hret
  | some c =>
    rw [hc] at hret
    have hg := rangeQuery_one_logging _ e v0 vs (ρ.filter_visit _ _ _ hone) hv _ _ _ _ hret
    refine ⟨?_, ?_, ?_, ?_, ?_, ?_, ?_⟩ <;> intro h <;> rw [hg, h]
    · exact ⟨rfl, rfl⟩
    all_goals rfl

/-- C9 at "h2://host/db?logging=debug", from a configuration with logging off at level
Info: afterwards logging is on at level Debug. -/
theorem parseURL_logging_witness :
    url.Parse "h2://host/db?logging=debug" =
      .ok ⟨"h2", "", none, "host", "/db", "logging=debug", ""⟩ ∧
    parseURL 9092 .inOrder "h2://host/db?logging=debug" ⟨false, .InfoLevel⟩ =
      .returned (⟨"tcp", "host:9092", "/db", "", "", false, false, .zero⟩, none)
        ⟨true, .DebugLevel⟩ ∧
    (⟨true, .DebugLevel⟩ : LogConfig) = ⟨true, .DebugLevel⟩ :=
  ⟨rfl, rfl, (parseURL_logging 9092 .inOrder "h2://host/db?logging=debug" ⟨false, .InfoLevel⟩
    ⟨"h2", "", none, "host", "/db", "logging=debug", ""⟩ ("logging", ["debug"]) "debug" []
    _ ⟨true, .DebugLevel⟩ rfl (by decide) rfl rfl).2.2.1 (by decide)⟩

theorem setHost_some (defaultH2port : Int) (u : url.URL) (ci : h2connInfo)
    (hdb : u.Scheme = "unix" → url.index u.Query "database" ≠ []) :
    ∃ c, setHost defaultH2port u ci = some c := by
  by_cases hs : u.Scheme = "unix"
  · rw [setHost_unix _ _ _ hs]
    cases hq : url.index u.Query "database" with
    | nil => exact absurd hq (hdb hs)
    | cons d ds => exact ⟨_, rfl⟩
  · rw [setHost_tcp _ _ _ hs]
    exact ⟨_, rfl⟩

/-- With recognised keys only and exactly one logging key, `parseURL` succeeds and the
configuration afterwards is the switch applied to the lower-cased logging value. -/
theorem parseURL_one_logging_ok (defaultH2port : Int) (ρ : RangeOrder) (dsn : String)
    (g : LogConfig) (u : url.URL) (k v0 : String) (vs : List String)
    (hparse : url.Parse dsn = .ok u)
    (hrec : ∀ e ∈ u.Query, recognised e.1)
    (hdb : u.Scheme = "unix" → url.index u.Query "database" ≠ [])
    (hone : u.Query.filter (fun x => decide (ToLower x.1 = "logging")) = [(k, v0 :: vs)]) :
    ∃ ci, parseURL defaultH2port ρ dsn g =
      .returned (ci, none) (switchLogType (ToLower v0) g) := by
  obtain ⟨c, hc⟩ := setHost_some defaultH2port u h2connInfo.zero hdb
  rw [parseURL_of_parse _ _ _ _ _ hparse, hc]
  have hvals : ∀ x ∈ ρ.visit u.Query, x.2 ≠ [] :=
    fun x hx => url_Query_ne_nil u x ((ρ.mem_visit _ _).mp hx)
  have hrec1 : ∀ x ∈ ρ.visit u.Query, recognised x.1 :=
    fun x hx => hrec x ((ρ.mem_visit _ _).mp hx)
  obtain ⟨ci, g1, hret⟩ := rangeQuery_recognised_ok _ hvals hrec1 (setUser u c) g
  have hg := rangeQuery_one_logging _ (k, v0 :: vs) v0 vs (ρ.filter_visit _ _ _ hone) rfl
    _ _ _ _ hret
  exact ⟨ci, hg ▸ hret⟩

/-- C10: a DSN with recognised keys only (and, for scheme unix, a key "database") whose
only logging parameter has the value "warn" parses successfully and leaves the logging
configuration exactly as it was, whereas one whose only logging parameter has the value
"warning" parses successfully and leaves `doLogging` true and the level Warn. -/
theorem parseURL_warn_versus_warning (defaultH2port : Int) (ρ ρ1 : RangeOrder)
    (dsnWarn dsnWarning : String) (g : LogConfig) (u u1 : url.URL) (k k1 : String)
    (vs vs1 : List String)
    (hparse : url.Parse dsnWarn = .ok u) (hparse1 : url.Parse dsnWarning = .ok u1)
    (hrec : ∀ e ∈ u.Query, recognised e.1) (hrec1 : ∀ e ∈ u1.Query, recognised e.1)
    (hdb : u.Scheme = "unix" → url.index u.Query "database" ≠ [])
    (hdb1 : u1.Scheme = "unix" → url.index u1.Query "database" ≠ [])
    (hone : u.Query.filter (fun x => decide (ToLower x.1 = "logging")) = [(k, "warn" :: vs)])
    (hone1 : u1.Query.filter (fun x => decide (ToLower x.1 = "logging")) =
      [(k1, "warning" :: vs1)]) :
    (∃ ci, parseURL defaultH2port ρ dsnWarn g = .returned (ci, none) g) ∧
    (∃ ci, parseURL defaultH2port ρ1 dsnWarning g =
      .returned (ci, none) ⟨true, .WarnLevel⟩) :=
  ⟨parseURL_one_logging_ok defaultH2port ρ dsnWarn g u k "warn" vs hparse hrec hdb hone,
    parseURL_one_logging_ok defaultH2port ρ1 dsnWarning g u1 k1 "warning" vs1 hparse1 hrec1
      hdb1 hone1⟩

/-- C10 at "h2://host/db?logging=warn" and "h2://host/db?logging=warning", from a
configuration with logging off at level Error. -/
theorem parseURL_warn_versus_warning_witness :
    url.Parse "h2://host/db?logging=warn" =
      .ok ⟨"h2", "", none, "host", "/db", "logging=warn", ""⟩ ∧
    url.Parse "h2://host/db?logging=warning" =
      .ok ⟨"h2", "", none, "host", "/db", "logging=warning", ""⟩ ∧
    (∃ ci, parseURL 9092 .inOrder "h2://host/db?logging=warn" ⟨false, .ErrorLevel⟩ =
      .returned (ci, none) ⟨false, .ErrorLevel⟩) ∧
    (∃ ci, parseURL 9092 .inOrder "h2://host/db?logging=warning" ⟨false, .ErrorLevel⟩ =
      .returned (ci, none) ⟨true, .WarnLevel⟩) :=
  ⟨rfl, rfl, parseURL_warn_versus_warning 9092 .inOrder .inOrder "h2://host/db?logging=warn"
    "h2://host/db?logging=warning" ⟨false, .ErrorLevel⟩
    ⟨"h2", "", none, "host", "/db", "logging=warn", ""⟩
    ⟨"h2", "", none, "host", "/db", "logging=warning", ""⟩ "logging" "logging" [] []
    rfl rfl (by decide) (by decide) (by decide) (by decide) (by decide) (by decide)⟩

/-! ## Further facts about the loop -/

/-- When the loop ends without error, the descriptor is the one obtained by applying the
mem keys, in the order visited, to the initial descriptor. -/
theorem rangeQuery_ok_ci (l : List (String × List String)) (ci : h2connInfo)
    (g : LogConfig) (ci1 : h2connInfo) (g1 : LogConfig)
    (h : rangeQuery ci g l = .returned (ci1, none) g1) :
    ci1 = (l.filter (fun x => decide (ToLower x.1 = "mem"))).foldl applyMem ci := by
  induction l generalizing ci g with
  | nil =>
    simp only [rangeQuery, Outcome.returned.injEq, Prod.mk.injEq] at h
    exact h.1.1.symm
  | cons x rest ih =>
    rw [rangeQuery] at h
    by_cases hm : ToLower x.1 = "mem"
    · have hd : decide (ToLower x.1 = "mem") = true := by simpa using hm
      rw [List.filter_cons, hd, if_pos rfl, List.foldl_cons]
      rw [if_pos hm] at h
      by_cases hv : firstValue x.2 = "" ∨ firstValue x.2 = "1" ∨ firstValue x.2 = "yes" ∨
          firstValue x.2 = "true"
      · rw [if_pos hv] at h
        have h2 := ih _ _ h
        rw [h2, applyMem, if_pos hv]
      · rw [if_neg hv] at h
        have h2 := ih _ _ h
        rw [h2, applyMem, if_neg hv]
    · have hd : decide (ToLower x.1 = "mem") = false := by simpa using hm
      rw [List.filter_cons, hd]
      rw [if_neg hm] at h
      split_ifs at h
      · cases hv : x.2 with
        | nil => rw [hv] at h; cases h
        | cons v0 vs => rw [hv] at h; exact ih _ _ h
      · exact ih _ _ h
      · simp at h

theorem switchLogType_unlisted (logType : String) (g : LogConfig)
    (h : logType ≠ "none" ∧ logType ≠ "info" ∧ logType ≠ "debug" ∧ logType ≠ "error" ∧
      logType ≠ "warning" ∧ logType ≠ "panic" ∧ logType ≠ "trace") :
    switchLogType logType g = g := by
  obtain ⟨h1, h2, h3, h4, h5, h6, h7⟩ := h
  unfold switchLogType
  rw [if_neg h1, if_neg h2, if_neg h3, if_neg h4]
  by_cases hw : logType = "warn"
  · rw [if_pos hw]
  · rw [if_neg hw, if_neg h5, if_neg h6, if_neg h7]

/-- Dropping entries that are passed over does not change what the loop does. -/
theorem rangeQuery_filter_passedOver (l : List (String × List String))
    (p : String × List String → Bool) (hp : ∀ e ∈ l, p e = false → passedOver e)
    (ci : h2connInfo) (g : LogConfig) :
    rangeQuery ci g (l.filter p) = rangeQuery ci g l := by
  induction l generalizing ci g with
  | nil => rfl
  | cons x rest ih =>
    have hrest : ∀ e ∈ rest, p e = false → passedOver e :=
      fun e he => hp e (List.mem_cons_of_mem _ he)
    by_cases hx : p x = true
    · rw [List.filter_cons, if_pos hx, rangeQuery, rangeQuery]
      simp only [ih hrest]
    · have hx1 : p x = false := by simpa using hx
      rw [List.filter_cons, if_neg hx, ih hrest]
      rcases hp x (List.mem_cons_self _ _) hx1 with hdb | ⟨hlog, v0, vs, hv, hun⟩
      · have h1 : ¬ ToLower x.1 = "mem" := by rw [hdb]; decide
        have h2 : ¬ ToLower x.1 = "logging" := by rw [hdb]; decide
        rw [rangeQuery.eq_2, if_neg h1, if_neg h2, if_pos hdb]
      · have h1 : ¬ ToLower x.1 = "mem" := by rw [hlog]; decide
        rw [rangeQuery.eq_2, if_neg h1, if_pos hlog, hv]
        simp only [switchLogType_unlisted _ _ hun]

/-- The loop keeps the invariant that `isMem` implies a database starting with "mem:". -/
theorem rangeQuery_isMem (l : List (String × List String)) (ci : h2connInfo)
    (g : LogConfig) (ci1 : h2connInfo) (err : Option GoError) (g1 : LogConfig)
    (hinv : ci.isMem = true → ∃ r, ci.database = "mem:" ++ r)
    (h : rangeQuery ci g l = .returned (ci1, err) g1) :
    ci1.isMem = true → ∃ r, ci1.database = "mem:" ++ r := by
  induction l generalizing ci g with
  | nil =>
    simp only [rangeQuery, Outcome.returned.injEq, Prod.mk.injEq] at h
    obtain ⟨⟨h1, -⟩, -⟩ := h
    subst h1
    exact hinv
  | cons x rest ih =>
    rw [rangeQuery] at h
    split_ifs at h
    · exact ih _ _ (fun _ => ⟨_, rfl⟩) h
    · exact ih _ _ (fun hc => by simp at hc) h
    · cases hv : x.2 with
      | nil => rw [hv] at h; cases h
      | cons v0 vs => rw [hv] at h; exact ih _ _ hinv h
    · exact ih _ _ hinv h
    · simp only [Outcome.returned.injEq, Prod.mk.injEq] at h
      obtain ⟨⟨h1, -⟩, -⟩ := h
      subst h1
      exact hinv

theorem String_append_ne_empty (a b : String) (h : a ≠ "") : a ++ b ≠ "" := by
  intro hc
  have h1 := congrArg String.length hc
  rw [String.length_append] at h1
  have ha : a.length ≠ 0 := fun h0 => h ((String_length_eq_zero_iff a).mp h0)
  have h2 : ("" : String).length = 0 := rfl
  omega

/-- The loop keeps a non-empty database non-empty. -/
theorem rangeQuery_database_ne (l : List (String × List String)) (ci : h2connInfo)
    (g : LogConfig) (ci1 : h2connInfo) (err : Option GoError) (g1 : LogConfig)
    (hinv : ci.database ≠ "")
    (h : rangeQuery ci g l = .returned (ci1, err) g1) : ci1.database ≠ "" := by
  induction l generalizing ci g with
  | nil =>
    simp only [rangeQuery, Outcome.returned.injEq, Prod.mk.injEq] at h
    obtain ⟨⟨h1, -⟩, -⟩ := h
    subst h1
    exact hinv
  | cons x rest ih =>
    rw [rangeQuery] at h
    split_ifs at h
    · exact ih _ _ (String_append_ne_empty _ _ (by decide)) h
    · refine ih _ _ ?_ h
      exact hinv
    · cases hv : x.2 with
      | nil => rw [hv] at h; cases h
      | cons v0 vs => rw [hv] at h; exact ih _ _ hinv h
    · exact ih _ _ hinv h
    · simp only [Outcome.returned.injEq, Prod.mk.injEq] at h
      obtain ⟨⟨h1, -⟩, -⟩ := h
      subst h1
      exact hinv

theorem perm_eq_of_length_le_one {α : Type} (m l1 l2 : List α) (hm : m.length ≤ 1)
    (h1 : l1.Perm m) (h2 : l2.Perm m) : l1 = l2 := by
  match m, hm with
  | [], _ =>
    rw [List.perm_nil.mp h1, List.perm_nil.mp h2]
  | [a], _ =>
    rw [List.perm_singleton.mp h1, List.perm_singleton.mp h2]

theorem RangeOrder.filter_visit_eq (ρ ρ1 : RangeOrder) (m : url.Values)
    (p : String × List String → Bool) (h : (m.filter p).length ≤ 1) :
    (ρ.visit m).filter p = (ρ1.visit m).filter p :=
  perm_eq_of_length_le_one (m.filter p) _ _ h ((ρ.perm m).filter p) ((ρ1.perm m).filter p)

theorem parseURL_of_parse_error (defaultH2port : Int) (ρ : RangeOrder) (dsn : String)
    (g : LogConfig) (e : url.ParseError) (h : url.Parse dsn = .error e) :
    parseURL defaultH2port ρ dsn g =
      .returned (h2connInfo.zero, some (.Wrapf e "failed to parse connection url")) g := by
  simp only [parseURL, L, h]

/-- Success under one range order gives success under every other. -/
theorem parseURL_ok_any_order (defaultH2port : Int) (ρ ρ1 : RangeOrder) (dsn : String)
    (g : LogConfig)
    (h : ∃ ci g1, parseURL defaultH2port ρ dsn g = .returned (ci, none) g1) :
    ∃ ci g1, parseURL defaultH2port ρ1 dsn g = .returned (ci, none) g1 := by
  obtain ⟨ci, g1, h⟩ := h
  cases hp : url.Parse dsn with
  | error e =>
    rw [parseURL_of_parse_error _ _ _ _ _ hp] at h
    simp at h
  | ok u =>
    rw [parseURL_of_parse _ _ _ _ _ hp] at h ⊢
    cases hc : setHost defaultH2port u h2connInfo.zero with
    | none => rw [hc] at h; cases h
    | some c =>
      rw [hc] at h
      have hrec := rangeQuery_ok_recognised _ _ _ _ _ h
      exact rangeQuery_recognised_ok _
        (fun x hx => url_Query_ne_nil u x ((ρ1.mem_visit _ _).mp hx))
        (fun x hx => hrec x ((ρ.mem_visit _ _).mpr ((ρ1.mem_visit _ _).mp hx))) _ g

/-- Failure under one range order gives failure under every other. -/
theorem parseURL_error_any_order (defaultH2port : Int) (ρ ρ1 : RangeOrder) (dsn : String)
    (g : LogConfig)
    (h : ∃ ci err g1, parseURL defaultH2port ρ dsn g = .returned (ci, some err) g1) :
    ∃ ci err g1, parseURL defaultH2port ρ1 dsn g = .returned (ci, some err) g1 := by
  obtain ⟨ci, err, g1, h⟩ := h
  cases hp : url.Parse dsn with
  | error e =>
    rw [parseURL_of_parse_error _ _ _ _ _ hp]
    exact ⟨_, _, _, rfl⟩
  | ok u =>
    rw [parseURL_of_parse _ _ _ _ _ hp] at h ⊢
    cases hc : setHost defaultH2port u h2connInfo.zero with
    | none => rw [hc] at h; cases h
    | some c =>
      rw [hc] at h
      obtain ⟨e, he, hn, -⟩ := rangeQuery_error _ _ _ _ _ _ h
      obtain ⟨ci1, err1, g2, h1⟩ := rangeQuery_returns (ρ1.visit u.Query)
        (fun x hx => url_Query_ne_nil u x ((ρ1.mem_visit _ _).mp hx)) (setUser u c) g
      cases err1 with
      | some err1 => exact ⟨ci1, err1, g2, h1⟩
      | none =>
        have hrec := rangeQuery_ok_recognised _ _ _ _ _ h1 e
          ((ρ1.mem_visit _ _).mpr ((ρ.mem_visit _ _).mp he))
        exact absurd hrec hn

theorem mem_eq_of_length_le_one {α : Type} (m : List α) (hm : m.length ≤ 1) (a b : α)
    (ha : a ∈ m) (hb : b ∈ m) : a = b := by
  match m, hm with
  | [], _ => cases ha
  | [c], _ => rw [List.mem_singleton.mp ha, List.mem_singleton.mp hb]
  | _ :: _ :: _, h => simp at h

/-- C11 as stated fails: "h2://host/db?mem=1&MEM=0" parses successfully under both orders
of its two keys, with `isMem` false when "mem" is visited first and `isMem` true when
"MEM" is visited first. -/
theorem parseURL_order_dependent :
    parseURL 9092 .inOrder "h2://host/db?mem=1&MEM=0" .initial =
      .returned (⟨"tcp", "host:9092", "mem:db", "", "", false, false, .zero⟩, none)
        .initial ∧
    parseURL 9092 .reversed "h2://host/db?mem=1&MEM=0" .initial =
      .returned (⟨"tcp", "host:9092", "mem:db", "", "", true, false, .zero⟩, none)
        .initial ∧
    parseURL 9092 .inOrder "h2://host/db?mem=1&MEM=0" .initial ≠
      parseURL 9092 .reversed "h2://host/db?mem=1&MEM=0" .initial := by
  decide

/-- C11 (amended): for every DSN and every two range orders, `parseURL` succeeds under one
exactly when it succeeds under the other, and fails under one exactly when it fails under
the other; when the query has at most one mem key (letter case ignored) the descriptors
returned on success are equal; when the query has at most one unrecognised key the errors
reported are equal. -/
theorem parseURL_order (defaultH2port : Int) (ρ ρ1 : RangeOrder) (dsn : String)
    (g : LogConfig) :
    ((∃ ci g1, parseURL defaultH2port ρ dsn g = .returned (ci, none) g1) ↔
      ∃ ci g1, parseURL defaultH2port ρ1 dsn g = .returned (ci, none) g1) ∧
    ((∃ ci err g1, parseURL defaultH2port ρ dsn g = .returned (ci, some err) g1) ↔
      ∃ ci err g1, parseURL defaultH2port ρ1 dsn g = .returned (ci, some err) g1) ∧
    ((∀ u, url.Parse dsn = .ok u →
        (u.Query.filter (fun x => decide (ToLower x.1 = "mem"))).length ≤ 1) →
      ∀ ci g1 ci1 g2, parseURL defaultH2port ρ dsn g = .returned (ci, none) g1 →
        parseURL defaultH2port ρ1 dsn g = .returned (ci1, none) g2 → ci = ci1) ∧
    ((∀ u, url.Parse dsn = .ok u →
        (u.Query.filter (fun x => decide (¬ recognised x.1))).length ≤ 1) →
      ∀ ci err g1 ci1 err1 g2, parseURL defaultH2port ρ dsn g = .returned (ci, some err) g1 →
        parseURL defaultH2port ρ1 dsn g = .returned (ci1, some err1) g2 → err = err1) := by
  refine ⟨⟨parseURL_ok_any_order _ ρ ρ1 _ _, parseURL_ok_any_order _ ρ1 ρ _ _⟩,
    ⟨parseURL_error_any_order _ ρ ρ1 _ _, parseURL_error_any_order _ ρ1 ρ _ _⟩, ?_, ?_⟩
  · intro hone ci g1 ci1 g2 h h1
    cases hp : url.Parse dsn with
    | error e =>
      rw [parseURL_of_parse_error _ _ _ _ _ hp] at h
      simp at h
    | ok u =>
      rw [parseURL_of_parse _ _ _ _ _ hp] at h h1
      cases hc : setHost defaultH2port u h2connInfo.zero with
      | none => rw [hc] at h; cases h
      | some c =>
        rw [hc] at h h1
        rw [rangeQuery_ok_ci _ _ _ _ _ h, rangeQuery_ok_ci _ _ _ _ _ h1,
          ρ.filter_visit_eq ρ1 _ _ (hone u hp)]
  · intro hone ci err g1 ci1 err1 g2 h h1
    cases hp : url.Parse dsn with
    | error e =>
      rw [parseURL_of_parse_error _ _ _ _ _ hp] at h h1
      simp only [Outcome.returned.injEq, Prod.mk.injEq, Option.some.injEq] at h h1
      rw [← h.1.2, ← h1.1.2]
    | ok u =>
      rw [parseURL_of_parse _ _ _ _ _ hp] at h h1
      cases hc : setHost defaultH2port u h2connInfo.zero with
      | none => rw [hc] at h; cases h
      | some c =>
        rw [hc] at h h1
        obtain ⟨e, he, hn, hE⟩ := rangeQuery_error _ _ _ _ _ _ h
        obtain ⟨e1, he1, hn1, hE1⟩ := rangeQuery_error _ _ _ _ _ _ h1
        have hm : e ∈ u.Query.filter (fun x => decide (¬ recognised x.1)) :=
          List.mem_filter.mpr ⟨(ρ.mem_visit _ _).mp he, by simpa using hn⟩
        have hm1 : e1 ∈ u.Query.filter (fun x => decide (¬ recognised x.1)) :=
          List.mem_filter.mpr ⟨(ρ1.mem_visit _ _).mp he1, by simpa using hn1⟩
        have hlen := hone u hp
        have hee : e = e1 := mem_eq_of_length_le_one _ hlen e e1 hm hm1
        rw [hE, hE1, hee]

/-- C11 (amended) at "h2://host/db?mem=1&logging=info" and
"h2://host/db?mem=1&bogus=2", visited in order and in reverse: equal descriptors on
success, equal errors on failure. -/
theorem parseURL_order_witness :
    parseURL 9092 .inOrder "h2://host/db?mem=1&logging=info" .initial =
      .returned (⟨"tcp", "host:9092", "mem:db", "", "", true, false, .zero⟩, none)
        ⟨true, .InfoLevel⟩ ∧
    parseURL 9092 .reversed "h2://host/db?mem=1&logging=info" .initial =
      .returned (⟨"tcp", "host:9092", "mem:db", "", "", true, false, .zero⟩, none)
        ⟨true, .InfoLevel⟩ ∧
    (⟨"tcp", "host:9092", "mem:db", "", "", true, false, .zero⟩ : h2connInfo) =
      ⟨"tcp", "host:9092", "mem:db", "", "", true, false, .zero⟩ ∧
    parseURL 9092 .inOrder "h2://host/db?mem=1&bogus=2" .initial =
      .returned (⟨"tcp", "host:9092", "mem:db", "", "", true, false, .zero⟩,
        some (.Errorf unknownParameterFormat ["bogus", "2"])) .initial ∧
    parseURL 9092 .reversed "h2://host/db?mem=1&bogus=2" .initial =
      .returned (⟨"tcp", "host:9092", "/db", "", "", false, false, .zero⟩,
        some (.Errorf unknownParameterFormat ["bogus", "2"])) .initial ∧
    GoError.Errorf unknownParameterFormat ["bogus", "2"] =
      GoError.Errorf unknownParameterFormat ["bogus", "2"] :=
  ⟨rfl, rfl,
    (parseURL_order 9092 .inOrder .reversed "h2://host/db?mem=1&logging=info"
      .initial).2.2.1
      (fun u hu => by
        have h : u = ⟨"h2", "", none, "host", "/db", "mem=1&logging=info", ""⟩ :=
          (Except.ok.inj hu).symm
        subst h
        decide) _ _ _ _ rfl rfl,
    rfl, rfl,
    (parseURL_order 9092 .inOrder .reversed "h2://host/db?mem=1&bogus=2" .initial).2.2.2
      (fun u hu => by
        have h : u = ⟨"h2", "", none, "host", "/db", "mem=1&bogus=2", ""⟩ :=
          (Except.ok.inj hu).symm
        subst h
        decide) _ _ _ _ _ _ rfl rfl⟩

/-- C12: for every DSN, `OpenConnector` fails with the error of `parseURL` exactly when
`parseURL` fails; otherwise it returns a connector that retains the descriptor of
`parseURL` and whose `Driver` is the driver it was opened from; and every `Connect` on that
connector, with any context and in any state, returns what `connect` returns for the
retained descriptor, which in the state after the parse is the result of `Open` on the
same DSN. -/
theorem OpenConnector_retains_descriptor {W Conn Ctx : Type}
    (connect : h2connInfo → LogConfig × W → ConnResult Conn × (LogConfig × W))
    (defaultH2port : Int) (ρ : RangeOrder) (h2d : h2Driver) (dsn : String)
    (g : LogConfig) :
    (∀ ci err g1, parseURL defaultH2port ρ dsn g = .returned (ci, some err) g1 →
      OpenConnector defaultH2port ρ h2d dsn g = .returned (none, some err) g1) ∧
    (∀ c g1, OpenConnector defaultH2port ρ h2d dsn g = .returned (some c, none) g1 →
      parseURL defaultH2port ρ dsn g = .returned (c.ci, none) g1) ∧
    (∀ ci g1, parseURL defaultH2port ρ dsn g = .returned (ci, none) g1 →
      ∃ c, OpenConnector defaultH2port ρ h2d dsn g = .returned (some c, none) g1 ∧
        c.ci = ci ∧ (∀ g2, (c.Driver g2).1 = h2d) ∧
        (∀ (ctx : Ctx) (g2 : LogConfig) (w : W),
          c.Connect connect ctx g2 w = connect ci (g2, w)) ∧
        (∀ (ctx : Ctx) (w : W),
          Open connect defaultH2port ρ h2d dsn g w =
            .returned (c.Connect connect ctx g1 w).1 (c.Connect connect ctx g1 w).2)) := by
  refine ⟨?_, ?_, ?_⟩
  · intro ci err g1 h
    simp only [OpenConnector, L, h]
  · intro c g1 h
    simp only [OpenConnector, L] at h
    cases hp : parseURL defaultH2port ρ dsn g with
    | panicked g2 => rw [hp] at h; cases h
    | returned val g2 =>
      obtain ⟨ci, err⟩ := val
      rw [hp] at h
      cases err with
      | some e => simp at h
      | none =>
        simp only [Outcome.returned.injEq, Prod.mk.injEq, Option.some.injEq, and_true] at h
        obtain ⟨h1, h2⟩ := h
        subst h1 h2
        rfl
  · intro ci g1 h
    refine ⟨⟨ci, h2d⟩, ?_, rfl, fun _ => rfl, fun _ _ _ => rfl, ?_⟩
    · simp only [OpenConnector, L, h]
    · intro ctx w
      simp only [Open, h, L, h2Connector.Connect]

/-- C12 at "h2://host/db" and ":foo", with a connect operation that counts its
invocations: the connector retains the descriptor, two calls of `Connect` return what
`connect` returns for it, and ":foo" gives the parse error. -/
theorem OpenConnector_retains_descriptor_witness :
    OpenConnector 9092 .inOrder .mk ":foo" .initial =
      .returned (none, some (.Wrapf .missingProtocolScheme "failed to parse connection url"))
        .initial ∧
    ∃ c, OpenConnector 9092 .inOrder .mk "h2://host/db" .initial =
        .returned (some c, none) .initial ∧
      c.ci = ⟨"tcp", "host:9092", "/db", "", "", false, false, .zero⟩ ∧
      (∀ g2, (c.Driver g2).1 = .mk) ∧
      (∀ (ctx : Bool) (g2 : LogConfig) (w : Nat), c.Connect countingConnect ctx g2 w =
        countingConnect ⟨"tcp", "host:9092", "/db", "", "", false, false, .zero⟩ (g2, w)) ∧
      (∀ (ctx : Bool) (w : Nat), Open countingConnect 9092 .inOrder .mk "h2://host/db"
        .initial w = .returned (c.Connect countingConnect ctx .initial w).1
          (c.Connect countingConnect ctx .initial w).2) :=
  ⟨(@OpenConnector_retains_descriptor Nat Unit Bool countingConnect 9092 .inOrder .mk ":foo"
      .initial).1 h2connInfo.zero _ .initial rfl,
    (@OpenConnector_retains_descriptor Nat Unit Bool countingConnect 9092 .inOrder .mk
      "h2://host/db" .initial).2.2 _ .initial rfl⟩

theorem String_append_ne_empty_right (a b : String) (h : b ≠ "") : a ++ b ≠ "" := by
  intro hc
  have h1 := congrArg String.length hc
  rw [String.length_append] at h1
  have hb : b.length ≠ 0 := fun h0 => h ((String_length_eq_zero_iff b).mp h0)
  have h2 : ("" : String).length = 0 := rfl
  omega

/-- Lines 100-126 leave user name, password and `isMem` as they are and fill in a
non-empty database. -/
theorem setHost_frame (defaultH2port : Int) (u : url.URL) (ci c : h2connInfo)
    (h : setHost defaultH2port u ci = some c) :
    c.username = ci.username ∧ c.password = ci.password ∧ c.isMem = ci.isMem ∧
      c.database ≠ "" := by
  have hne : ∀ s : String, (if s.length = 0 then "~/test" else s) ≠ "" := by
    intro s
    by_cases hs : s.length = 0
    · rw [if_pos hs]
      decide
    · rw [if_neg hs]
      exact fun hc => hs ((String_length_eq_zero_iff s).mpr hc)
  by_cases hs : u.Scheme = "unix"
  · rw [setHost_unix _ _ _ hs] at h
    cases hq : url.index u.Query "database" with
    | nil => rw [hq] at h; cases h
    | cons d ds =>
      rw [hq] at h
      simp only [Option.some.injEq] at h
      subst h
      exact ⟨rfl, rfl, rfl, hne d⟩
  · rw [setHost_tcp _ _ _ hs] at h
    simp only [Option.some.injEq] at h
    subst h
    exact ⟨rfl, rfl, rfl, hne u.Path⟩

/-- C13 as stated fails: "unix://?database=foo" parses successfully and the address of
the descriptor is empty. -/
theorem parseURL_unix_empty_address :
    parseURL 9092 .inOrder "unix://?database=foo" .initial =
      .returned (⟨"unix", "", "foo", "", "", false, false, .zero⟩, none) .initial ∧
    (⟨"unix", "", "foo", "", "", false, false, .zero⟩ : h2connInfo).address = "" := by
  decide

/-- C13 (amended): for every DSN that `parseURL` parses successfully (both network kinds,
any query) the database of the descriptor is non-empty; for a scheme other than unix the
address is non-empty; for the scheme unix the address is the URL path as it is. -/
theorem parseURL_nonempty (defaultH2port : Int) (ρ : RangeOrder) (dsn : String)
    (g : LogConfig) (u : url.URL) (ci : h2connInfo) (g1 : LogConfig)
    (hparse : url.Parse dsn = .ok u)
    (hret : parseURL defaultH2port ρ dsn g = .returned (ci, none) g1) :
    ci.database ≠ "" ∧ (u.Scheme ≠ "unix" → ci.address ≠ "") ∧
      (u.Scheme = "unix" → ci.address = u.Path) := by
  rw [parseURL_of_parse _ _ _ _ _ hparse] at hret
  cases hc : setHost defaultH2port u h2connInfo.zero with
  | none => rw [hc] at hret; cases hret
  | some c =>
    rw [hc] at hret
    have hfr := rangeQuery_frame _ _ _ _ _ _ hret
    refine ⟨?_, ?_, ?_⟩
    · refine rangeQuery_database_ne _ _ _ _ _ _ ?_ hret
      rw [(setUser_frame u c).2.2.1]
      exact (setHost_frame _ _ _ _ hc).2.2.2
    · intro hs
      rw [setHost_tcp _ _ _ hs] at hc
      simp only [Option.some.injEq] at hc
      subst hc
      rw [hfr.2.1, (setUser_frame u _).2.1]
      exact String_append_ne_empty _ _ (String_append_ne_empty_right _ _ (by decide))
    · intro hs
      rw [setHost_unix _ _ _ hs] at hc
      cases hq : url.index u.Query "database" with
      | nil => rw [hq] at hc; cases hc
      | cons d ds =>
        rw [hq] at hc
        simp only [Option.some.injEq] at hc
        subst hc
        rw [hfr.2.1, (setUser_frame u _).2.1]

/-- C13 (amended) at "h2:///?mem=1": the address is "127.0.0.1:9092" and the database is
"mem:", both non-empty. -/
theorem parseURL_nonempty_witness :
    url.Parse "h2:///?mem=1" = .ok ⟨"h2", "", none, "", "/", "mem=1", ""⟩ ∧
    parseURL 9092 .inOrder "h2:///?mem=1" .initial =
      .returned (⟨"tcp", "127.0.0.1:9092", "mem:", "", "", true, false, .zero⟩, none)
        .initial ∧
    (⟨"tcp", "127.0.0.1:9092", "mem:", "", "", true, false, .zero⟩ : h2connInfo).database ≠
      "" :=
  ⟨rfl, rfl, (parseURL_nonempty 9092 .inOrder "h2:///?mem=1" .initial
    ⟨"h2", "", none, "", "/", "mem=1", ""⟩ _ .initial rfl rfl).1⟩

/-- C14: for every DSN that `parseURL` parses (whatever the query and the order in which it
is visited): when the URL has no user information, user name and password are empty; when
it has, the user name is its user name and the password is its password if one is present
and empty otherwise. -/
theorem parseURL_userinfo (defaultH2port : Int) (ρ : RangeOrder) (dsn : String)
    (g : LogConfig) (u : url.URL) (ci : h2connInfo) (err : Option GoError) (g1 : LogConfig)
    (hparse : url.Parse dsn = .ok u)
    (hret : parseURL defaultH2port ρ dsn g = .returned (ci, err) g1) :
    (u.User = none → ci.username = "" ∧ ci.password = "") ∧
    (∀ info, u.User = some info → ci.username = info.username ∧
      ci.password = if info.passwordSet then info.password else "") := by
  rw [parseURL_of_parse _ _ _ _ _ hparse] at hret
  cases hc : setHost defaultH2port u h2connInfo.zero with
  | none => rw [hc] at hret; cases hret
  | some c =>
    rw [hc] at hret
    have hfr := rangeQuery_frame _ _ _ _ _ _ hret
    obtain ⟨hu, hp, -, -⟩ := setHost_frame _ _ _ _ hc
    have hu0 : c.username = "" := hu
    have hp0 : c.password = "" := hp
    rw [hfr.2.2.1, hfr.2.2.2]
    constructor
    · intro hn
      simp only [setUser, hn, hu0, hp0, and_self]
    · intro info hi
      by_cases hs : info.passwordSet = true
      · simp only [setUser, hi, hs, if_true, and_self]
      · simp only [setUser, hi, hs, if_false, hp0, and_self, Bool.false_eq_true]

/-- C14 at "h2://user:pass@host/db?mem=1": user name "user", password "pass". -/
theorem parseURL_userinfo_witness :
    url.Parse "h2://user:pass@host/db?mem=1" =
      .ok ⟨"h2", "", some ⟨"user", "pass", true⟩, "host", "/db", "mem=1", ""⟩ ∧
    parseURL 9092 .inOrder "h2://user:pass@host/db?mem=1" .initial =
      .returned (⟨"tcp", "host:9092", "mem:db", "user", "pass", true, false, .zero⟩, none)
        .initial ∧
    ((⟨"tcp", "host:9092", "mem:db", "user", "pass", true, false, .zero⟩ :
        h2connInfo).username = "user" ∧
      (⟨"tcp", "host:9092", "mem:db", "user", "pass", true, false, .zero⟩ :
        h2connInfo).password = "pass") :=
  ⟨rfl, rfl, (parseURL_userinfo 9092 .inOrder "h2://user:pass@host/db?mem=1" .initial
    ⟨"h2", "", some ⟨"user", "pass", true⟩, "host", "/db", "mem=1", ""⟩ _ none .initial
    rfl rfl).2 ⟨"user", "pass", true⟩ rfl⟩

/-- C15: for every descriptor `parseURL` returns, with or without an error, for any query
and any order in which its keys are visited: when `isMem` is true the database starts with
"mem:". -/
theorem parseURL_isMem_prefix (defaultH2port : Int) (ρ : RangeOrder) (dsn : String)
    (g : LogConfig) (ci : h2connInfo) (err : Option GoError) (g1 : LogConfig)
    (hret : parseURL defaultH2port ρ dsn g = .returned (ci, err) g1)
    (hmem : ci.isMem = true) : ∃ r, ci.database = "mem:" ++ r := by
  cases hp : url.Parse dsn with
  | error e =>
    rw [parseURL_of_parse_error _ _ _ _ _ hp] at hret
    simp only [Outcome.returned.injEq, Prod.mk.injEq] at hret
    rw [← hret.1.1] at hmem
    cases hmem
  | ok u =>
    rw [parseURL_of_parse _ _ _ _ _ hp] at hret
    cases hc : setHost defaultH2port u h2connInfo.zero with
    | none => rw [hc] at hret; cases hret
    | some c =>
      rw [hc] at hret
      refine rangeQuery_isMem _ _ _ _ _ _ ?_ hret hmem
      intro h
      rw [(setUser_frame u c).2.2.2, (setHost_frame _ _ _ _ hc).2.2.1] at h
      cases h

/-- C15 at "h2://host/db?mem=1&MEM=0" with "MEM" visited first: `isMem` is true and the
database is "mem:db". -/
theorem parseURL_isMem_prefix_witness :
    parseURL 9092 .reversed "h2://host/db?mem=1&MEM=0" .initial =
      .returned (⟨"tcp", "host:9092", "mem:db", "", "", true, false, .zero⟩, none)
        .initial ∧
    ∃ r, (⟨"tcp", "host:9092", "mem:db", "", "", true, false, .zero⟩ :
      h2connInfo).database = "mem:" ++ r :=
  ⟨rfl, parseURL_isMem_prefix 9092 .reversed "h2://host/db?mem=1&MEM=0" .initial _ none
    .initial rfl rfl⟩

/-- When an unrecognised key is visited before every logging key, the loop ends with the
logging configuration it started with. -/
theorem rangeQuery_unrecognised_first (pre : List (String × List String))
    (x : String × List String) (rest : List (String × List String))
    (hpre : ∀ y ∈ pre, ToLower y.1 ≠ "logging") (hx : ¬ recognised x.1)
    (ci : h2connInfo) (g : LogConfig) (ci1 : h2connInfo) (err : Option GoError)
    (g1 : LogConfig)
    (h : rangeQuery ci g (pre ++ x :: rest) = .returned (ci1, err) g1) : g1 = g := by
  induction pre generalizing ci with
  | nil =>
    have h1 : ¬ ToLower x.1 = "mem" := fun hc => hx (Or.inl hc)
    have h2 : ¬ ToLower x.1 = "logging" := fun hc => hx (Or.inr (Or.inl hc))
    have h3 : ¬ ToLower x.1 = "database" := fun hc => hx (Or.inr (Or.inr hc))
    rw [List.nil_append, rangeQuery, if_neg h1, if_neg h2, if_neg h3] at h
    simp only [Outcome.returned.injEq, Prod.mk.injEq] at h
    exact h.2.symm
  | cons y pre ih =>
    have hy : ¬ ToLower y.1 = "logging" := hpre y (List.mem_cons_self _ _)
    have hpre1 : ∀ z ∈ pre, ToLower z.1 ≠ "logging" :=
      fun z hz => hpre z (List.mem_cons_of_mem _ hz)
    rw [List.cons_append, rangeQuery, if_neg hy] at h
    split_ifs at h
    · exact ih hpre1 _ h
    · exact ih hpre1 _ h
    · exact ih hpre1 _ h
    · simp only [Outcome.returned.injEq, Prod.mk.injEq] at h
      exact h.2.symm

/-- C16 as stated fails: on "h2://host/db?logging=debug&bogus=1", with the key "logging"
visited first, `parseURL` fails and leaves logging enabled at level Debug. -/
theorem parseURL_failure_changes_logging :
    parseURL 9092 .inOrder "h2://host/db?logging=debug&bogus=1" .initial =
      .returned (⟨"tcp", "host:9092", "/db", "", "", false, false, .zero⟩,
        some (.Errorf unknownParameterFormat ["bogus", "1"])) ⟨true, .DebugLevel⟩ ∧
    (⟨true, .DebugLevel⟩ : LogConfig) ≠ LogConfig.initial := by
  decide

/-- C16 (amended): when `parseURL` fails, the flag `doLogging` and the log level after the
call equal their values before the call if the URL is malformed, or if the query has no
logging key, or if the order in which the keys are visited has an unrecognised key before
every logging key. -/
theorem parseURL_failure_logging (defaultH2port : Int) (ρ : RangeOrder) (dsn : String)
    (g : LogConfig) (ci : h2connInfo) (err : GoError) (g1 : LogConfig)
    (hret : parseURL defaultH2port ρ dsn g = .returned (ci, some err) g1) :
    (∀ e, url.Parse dsn = .error e → g1 = g) ∧
    (∀ u, url.Parse dsn = .ok u → (∀ x ∈ u.Query, ToLower x.1 ≠ "logging") → g1 = g) ∧
    (∀ u pre x rest, url.Parse dsn = .ok u → ρ.visit u.Query = pre ++ x :: rest →
      (∀ y ∈ pre, ToLower y.1 ≠ "logging") → ¬ recognised x.1 → g1 = g) := by
  refine ⟨?_, ?_, ?_⟩
  · intro e he
    rw [parseURL_of_parse_error _ _ _ _ _ he] at hret
    simp only [Outcome.returned.injEq, Prod.mk.injEq] at hret
    exact hret.2.symm
  · intro u hu hno
    rw [parseURL_of_parse _ _ _ _ _ hu] at hret
    cases hc : setHost defaultH2port u h2connInfo.zero with
    | none => rw [hc] at hret; cases hret
    | some c =>
      rw [hc] at hret
      exact rangeQuery_no_logging _ (fun x hx => hno x ((ρ.mem_visit _ _).mp hx))
        _ _ _ _ _ hret
  · intro u pre x rest hu hvis hpre hx
    rw [parseURL_of_parse _ _ _ _ _ hu] at hret
    cases hc : setHost defaultH2port u h2connInfo.zero with
    | none => rw [hc] at hret; cases hret
    | some c =>
      rw [hc] at hret
      simp only [hvis] at hret
      exact rangeQuery_unrecognised_first pre x rest hpre hx _ _ _ _ _ hret

/-- C16 (amended) at "h2://host/db?logging=debug&bogus=1" with the key "bogus" visited
first: the parse fails and the logging configuration is the initial one, as before. -/
theorem parseURL_failure_logging_witness :
    parseURL 9092 .reversed "h2://host/db?logging=debug&bogus=1" .initial =
      .returned (⟨"tcp", "host:9092", "/db", "", "", false, false, .zero⟩,
        some (.Errorf unknownParameterFormat ["bogus", "1"])) .initial ∧
    url.Parse "h2://host/db?logging=debug&bogus=1" =
      .ok ⟨"h2", "", none, "host", "/db", "logging=debug&bogus=1", ""⟩ ∧
    LogConfig.initial = LogConfig.initial :=
  ⟨rfl, rfl, (parseURL_failure_logging 9092 .reversed "h2://host/db?logging=debug&bogus=1"
    .initial _ _ .initial rfl).2.2
    ⟨"h2", "", none, "host", "/db", "logging=debug&bogus=1", ""⟩ [] ("bogus", ["1"])
    [("logging", ["debug"])] rfl rfl (by decide) (by decide)⟩

/-- C17: for every DSN of a scheme other than unix, a second DSN that differs from it only
in entries of the query key "database" (such as an added `database=X`), the other keys
being visited in the same order, gives exactly the same outcome: the same descriptor, the
same error if any, and the same logging configuration. -/
theorem parseURL_database_ignored (defaultH2port : Int) (ρ ρ1 : RangeOrder)
    (dsn dsn1 : String) (g : LogConfig) (u u1 : url.URL)
    (hparse : url.Parse dsn = .ok u) (hparse1 : url.Parse dsn1 = .ok u1)
    (hscheme : u.Scheme ≠ "unix")
    (hsame : u1.Scheme = u.Scheme ∧ u1.User = u.User ∧ u1.Host = u.Host ∧ u1.Path = u.Path)
    (hvisit : (ρ1.visit u1.Query).filter (fun x => decide (x.1 ≠ "database")) =
      (ρ.visit u.Query).filter (fun x => decide (x.1 ≠ "database"))) :
    parseURL defaultH2port ρ1 dsn1 g = parseURL defaultH2port ρ dsn g := by
  obtain ⟨hs, hu, hh, hp⟩ := hsame
  have hscheme1 : u1.Scheme ≠ "unix" := by
    rw [hs]
    exact hscheme
  have hskip : ∀ (l : List (String × List String)) (e : String × List String), e ∈ l →
      decide (e.1 ≠ "database") = false → passedOver e := by
    intro l e _ he
    have h1 : e.1 = "database" := by simpa using he
    refine Or.inl ?_
    rw [h1]
    decide
  rw [parseURL_of_parse _ _ _ _ _ hparse, parseURL_of_parse _ _ _ _ _ hparse1,
    setHost_tcp _ _ _ hscheme, setHost_tcp _ _ _ hscheme1]
  simp only [url.URL.Hostname, url.URL.Port, hs, hh, hp, setUser_congr u u1 _ hu]
  rw [← rangeQuery_filter_passedOver (ρ1.visit u1.Query) _ (hskip _),
    ← rangeQuery_filter_passedOver (ρ.visit u.Query) _ (hskip _), hvisit]

/-- C17 at "h2://host/db?mem=1" and "h2://host/db?mem=1&database=X": the same
outcome. -/
theorem parseURL_database_ignored_witness :
    url.Parse "h2://host/db?mem=1" = .ok ⟨"h2", "", none, "host", "/db", "mem=1", ""⟩ ∧
    url.Parse "h2://host/db?mem=1&database=X" =
      .ok ⟨"h2", "", none, "host", "/db", "mem=1&database=X", ""⟩ ∧
    parseURL 9092 .inOrder "h2://host/db?mem=1&database=X" .initial =
      parseURL 9092 .inOrder "h2://host/db?mem=1" .initial ∧
    parseURL 9092 .inOrder "h2://host/db?mem=1" .initial =
      .returned (⟨"tcp", "host:9092", "mem:db", "", "", true, false, .zero⟩, none)
        .initial :=
  ⟨rfl, rfl, parseURL_database_ignored 9092 .inOrder .inOrder "h2://host/db?mem=1"
    "h2://host/db?mem=1&database=X" .initial ⟨"h2", "", none, "host", "/db", "mem=1", ""⟩
    ⟨"h2", "", none, "host", "/db", "mem=1&database=X", ""⟩ rfl rfl (by decide)
    ⟨rfl, rfl, rfl, rfl⟩ (by decide), rfl⟩

/-- C18 as stated fails: with a connect operation bound to a live context, `Connect`
called with a cancelled context (`true`) succeeds, exactly as it does with a live one
(`false`), where the same operation given the cancelled context fails. -/
theorem Connect_cancelled_context_succeeds :
    h2Connector.Connect (contextConnect false)
        ⟨⟨"tcp", "host:9092", "/db", "", "", false, false, .zero⟩, .mk⟩ true .initial 0 =
      ((some (), none), (.initial, 1)) ∧
    h2Connector.Connect (contextConnect false)
        ⟨⟨"tcp", "host:9092", "/db", "", "", false, false, .zero⟩, .mk⟩ true .initial 0 =
      h2Connector.Connect (contextConnect false)
        ⟨⟨"tcp", "host:9092", "/db", "", "", false, false, .zero⟩, .mk⟩ false .initial 0 ∧
    contextConnect true ⟨"tcp", "host:9092", "/db", "", "", false, false, .zero⟩
        (.initial, 0) =
      ((none, some (.external "context canceled")), (.initial, 0)) :=
  ⟨rfl, rfl, rfl⟩

/-- C18 (amended): `Connect` accepts a context and does not pass it on: for every connect
operation, connector, context and state it returns what `connect` returns for the
retained descriptor, and so the same result for any two contexts, cancelled or live. -/
theorem Connect_ignores_context {W Conn Ctx : Type}
    (connect : h2connInfo → LogConfig × W → ConnResult Conn × (LogConfig × W))
    (h2c : h2Connector) (ctx ctx1 : Ctx) (g : LogConfig) (w : W) :
    h2c.Connect connect ctx g w = connect h2c.ci (g, w) ∧
    h2c.Connect connect ctx g w = h2c.Connect connect ctx1 g w :=
  ⟨rfl, rfl⟩

/-- The DSN without its mem keys: when it parses successfully with database D, lines
100-126 succeed on the DSN itself with the same database D, and every key of the DSN is
recognised. -/
theorem parseURL_mem_removed (defaultH2port : Int) (ρ ρ1 : RangeOrder) (dsn1 : String)
    (g0 : LogConfig) (u u1 : url.URL) (ci0 : h2connInfo) (g1 : LogConfig)
    (hparse1 : url.Parse dsn1 = .ok u1)
    (hsame : u1.Scheme = u.Scheme ∧ u1.User = u.User ∧ u1.Host = u.Host ∧ u1.Path = u.Path)
    (hquery : u1.Query = u.Query.filter (fun x => decide (ToLower x.1 ≠ "mem")))
    (hret1 : parseURL defaultH2port ρ1 dsn1 g0 = .returned (ci0, none) g1) :
    ∃ c, setHost defaultH2port u h2connInfo.zero = some c ∧ ci0.database = c.database ∧
      ∀ x ∈ ρ.visit u.Query, recognised x.1 := by
  obtain ⟨hs, hu, hh, hp⟩ := hsame
  have hidx : url.index u1.Query "database" = url.index u.Query "database" := by
    rw [hquery]
    apply url_index_filter
    intro x _ hx
    rw [hx]
    decide
  have hhost := setHost_congr defaultH2port u u1 h2connInfo.zero hs hh hp hidx
  rw [parseURL_of_parse _ _ _ _ _ hparse1, hhost] at hret1
  cases hc : setHost defaultH2port u h2connInfo.zero with
  | none => rw [hc] at hret1; cases hret1
  | some c =>
    rw [hc] at hret1
    have hrec1 := rangeQuery_ok_recognised _ _ _ _ _ hret1
    have hnomem1 : ∀ x ∈ ρ1.visit u1.Query, ToLower x.1 ≠ "mem" := by
      intro x hx
      have hx1 : x ∈ u1.Query := (ρ1.mem_visit _ _).mp hx
      rw [hquery] at hx1
      simpa using (List.mem_filter.mp hx1).2
    refine ⟨c, rfl, ?_, ?_⟩
    · rw [(rangeQuery_no_mem _ hnomem1 _ _ _ _ _ hret1).1, (setUser_frame u1 _).2.2.1]
    · intro x hx
      have hx0 : x ∈ u.Query := (ρ.mem_visit _ _).mp hx
      by_cases hm : ToLower x.1 = "mem"
      · exact Or.inl hm
      · apply hrec1 x
        rw [ρ1.mem_visit, hquery]
        exact List.mem_filter.mpr ⟨hx0, by simpa using hm⟩

/-- C19: for every DSN with exactly one mem key (in any letter case) whose trimmed value is
none of "", "1", "yes", "true", when the same DSN without the mem key parses successfully
with database D, `parseURL` succeeds with `isMem` false and database D, unchanged. -/
theorem parseURL_mem_rejected (defaultH2port : Int) (ρ ρ1 : RangeOrder) (dsn dsn1 : String)
    (g g0 : LogConfig) (u u1 : url.URL) (e : String × List String)
    (ci0 : h2connInfo) (g1 : LogConfig)
    (hparse : url.Parse dsn = .ok u) (hparse1 : url.Parse dsn1 = .ok u1)
    (hsame : u1.Scheme = u.Scheme ∧ u1.User = u.User ∧ u1.Host = u.Host ∧ u1.Path = u.Path)
    (hquery : u1.Query = u.Query.filter (fun x => decide (ToLower x.1 ≠ "mem")))
    (hone : u.Query.filter (fun x => decide (ToLower x.1 = "mem")) = [e])
    (hval : firstValue e.2 ≠ "" ∧ firstValue e.2 ≠ "1" ∧ firstValue e.2 ≠ "yes" ∧
      firstValue e.2 ≠ "true")
    (hret1 : parseURL defaultH2port ρ1 dsn1 g0 = .returned (ci0, none) g1) :
    ∃ ci g2, parseURL defaultH2port ρ dsn g = .returned (ci, none) g2 ∧ ci.isMem = false ∧
      ci.database = ci0.database := by
  obtain ⟨c, hc, hD, hrec⟩ :=
    parseURL_mem_removed defaultH2port ρ ρ1 dsn1 g0 u u1 ci0 g1 hparse1 hsame hquery hret1
  rw [parseURL_of_parse _ _ _ _ _ hparse, hc]
  have hvals : ∀ x ∈ ρ.visit u.Query, x.2 ≠ [] :=
    fun x hx => url_Query_ne_nil u x ((ρ.mem_visit _ _).mp hx)
  obtain ⟨ci, g2, hret⟩ := rangeQuery_recognised_ok _ hvals hrec (setUser u c) g
  have hci := rangeQuery_ok_ci _ _ _ _ _ hret
  have hnot : ¬ (firstValue e.2 = "" ∨ firstValue e.2 = "1" ∨ firstValue e.2 = "yes" ∨
      firstValue e.2 = "true") := by
    rintro (h | h | h | h)
    · exact hval.1 h
    · exact hval.2.1 h
    · exact hval.2.2.1 h
    · exact hval.2.2.2 h
  rw [ρ.filter_visit _ _ _ hone, List.foldl_cons, List.foldl_nil, applyMem, if_neg hnot] at hci
  refine ⟨ci, g2, hret, ?_, ?_⟩
  · rw [hci]
  · rw [hci, hD]
    exact (setUser_frame u c).2.2.1

/-- C19 at "h2://host/db?mem=TRUE": `isMem` is false and the database is "/db", as for
"h2://host/db". -/
theorem parseURL_mem_rejected_witness :
    url.Parse "h2://host/db?mem=TRUE" = .ok ⟨"h2", "", none, "host", "/db", "mem=TRUE", ""⟩ ∧
    url.Parse "h2://host/db" = .ok ⟨"h2", "", none, "host", "/db", "", ""⟩ ∧
    parseURL 9092 .inOrder "h2://host/db" .initial =
      .returned (⟨"tcp", "host:9092", "/db", "", "", false, false, .zero⟩, none) .initial ∧
    ∃ ci g2, parseURL 9092 .inOrder "h2://host/db?mem=TRUE" .initial =
        .returned (ci, none) g2 ∧ ci.isMem = false ∧ ci.database = "/db" :=
  ⟨rfl, rfl, rfl, parseURL_mem_rejected 9092 .inOrder .inOrder "h2://host/db?mem=TRUE"
    "h2://host/db" .initial .initial ⟨"h2", "", none, "host", "/db", "mem=TRUE", ""⟩
    ⟨"h2", "", none, "host", "/db", "", ""⟩ ("mem", ["TRUE"])
    ⟨"tcp", "host:9092", "/db", "", "", false, false, .zero⟩ .initial rfl rfl
    ⟨rfl, rfl, rfl, rfl⟩ (by decide) (by decide) (by decide) rfl⟩

/-- A DSN without logging key leaves the logging configuration as it is, however the call
ends. -/
theorem parseURL_no_logging_state (defaultH2port : Int) (ρ : RangeOrder) (dsn : String)
    (g : LogConfig)
    (hno : ∀ u, url.Parse dsn = .ok u → ∀ x ∈ u.Query, ToLower x.1 ≠ "logging") :
    (parseURL defaultH2port ρ dsn g).state = g := by
  cases hp : url.Parse dsn with
  | error e =>
    rw [parseURL_of_parse_error _ _ _ _ _ hp]
    rfl
  | ok u =>
    rw [parseURL_of_parse _ _ _ _ _ hp]
    cases hc : setHost defaultH2port u h2connInfo.zero with
    | none => rfl
    | some c =>
      obtain ⟨ci, err, g1, h⟩ := rangeQuery_returns (ρ.visit u.Query)
        (fun x hx => url_Query_ne_nil u x ((ρ.mem_visit _ _).mp hx)) (setUser u c) g
      have hg := rangeQuery_no_logging _
        (fun x hx => hno u hp x ((ρ.mem_visit _ _).mp hx)) _ _ _ _ _ h
      simp only [h, Outcome.state, hg]

/-- C20: for every DSN with exactly one logging key whose lower-cased first value is none
of none, info, debug, error, warn, warning, panic, trace, the outcome of `parseURL`
(descriptor and error) is that of the same DSN without the logging key, the other keys
being visited in the same order, and the logging configuration is left as it was;
likewise a DSN without logging key leaves the logging configuration as it was. -/
theorem parseURL_logging_unlisted (defaultH2port : Int) (ρ ρ1 : RangeOrder)
    (dsn dsn1 : String) (g : LogConfig) (u u1 : url.URL) (e : String × List String)
    (v0 : String) (vs : List String)
    (hparse : url.Parse dsn = .ok u) (hparse1 : url.Parse dsn1 = .ok u1)
    (hsame : u1.Scheme = u.Scheme ∧ u1.User = u.User ∧ u1.Host = u.Host ∧ u1.Path = u.Path)
    (hquery : u1.Query = u.Query.filter (fun x => decide (ToLower x.1 ≠ "logging")))
    (hvisit : ρ1.visit u1.Query =
      (ρ.visit u.Query).filter (fun x => decide (ToLower x.1 ≠ "logging")))
    (hone : u.Query.filter (fun x => decide (ToLower x.1 = "logging")) = [e])
    (hv : e.2 = v0 :: vs)
    (hun : ToLower v0 ≠ "none" ∧ ToLower v0 ≠ "info" ∧ ToLower v0 ≠ "debug" ∧
      ToLower v0 ≠ "error" ∧ ToLower v0 ≠ "warn" ∧ ToLower v0 ≠ "warning" ∧
      ToLower v0 ≠ "panic" ∧ ToLower v0 ≠ "trace") :
    parseURL defaultH2port ρ dsn g = parseURL defaultH2port ρ1 dsn1 g ∧
    (parseURL defaultH2port ρ dsn g).state = g ∧
    (∀ dsn2, (∀ u2, url.Parse dsn2 = .ok u2 → ∀ x ∈ u2.Query, ToLower x.1 ≠ "logging") →
      (parseURL defaultH2port ρ dsn2 g).state = g) := by
  obtain ⟨hs, hu, hh, hp⟩ := hsame
  obtain ⟨h1, h2, h3, h4, -, h6, h7, h8⟩ := hun
  have hidx : url.index u1.Query "database" = url.index u.Query "database" := by
    rw [hquery]
    apply url_index_filter
    intro x _ hx
    rw [hx]
    decide
  have hhost := setHost_congr defaultH2port u u1 h2connInfo.zero hs hh hp hidx
  have hskip : ∀ x ∈ ρ.visit u.Query, decide (ToLower x.1 ≠ "logging") = false →
      passedOver x := by
    intro x hx hd
    have hl : ToLower x.1 = "logging" := by simpa using hd
    have hmem : x ∈ u.Query.filter (fun x => decide (ToLower x.1 = "logging")) :=
      List.mem_filter.mpr ⟨(ρ.mem_visit _ _).mp hx, by simpa using hl⟩
    rw [hone, List.mem_singleton] at hmem
    subst hmem
    exact Or.inr ⟨hl, v0, vs, hv, h1, h2, h3, h4, h6, h7, h8⟩
  have heq : parseURL defaultH2port ρ dsn g = parseURL defaultH2port ρ1 dsn1 g := by
    rw [parseURL_of_parse _ _ _ _ _ hparse, parseURL_of_parse _ _ _ _ _ hparse1, hhost]
    cases hc : setHost defaultH2port u h2connInfo.zero with
    | none => rfl
    | some c =>
      simp only [hvisit, setUser_congr u u1 _ hu]
      exact (rangeQuery_filter_passedOver (ρ.visit u.Query) _ hskip _ _).symm
  have hno1 : ∀ u2, url.Parse dsn1 = .ok u2 → ∀ x ∈ u2.Query, ToLower x.1 ≠ "logging" := by
    intro u2 hu2 x hx
    rw [hparse1] at hu2
    have h21 : u1 = u2 := Except.ok.inj hu2
    subst h21
    rw [hquery] at hx
    simpa using (List.mem_filter.mp hx).2
  refine ⟨heq, ?_, fun dsn2 hno => parseURL_no_logging_state _ _ _ _ hno⟩
  rw [heq]
  exact parseURL_no_logging_state _ _ _ _ hno1

/-- C20 at "h2://host/db?logging=%20info&mem=1", whose logging value " info" is not
trimmed, and "h2://host/db?mem=1": the same outcome, the logging configuration left as it
was. -/
theorem parseURL_logging_unlisted_witness :
    url.Parse "h2://host/db?logging=%20info&mem=1" =
      .ok ⟨"h2", "", none, "host", "/db", "logging=%20info&mem=1", ""⟩ ∧
    url.Parse "h2://host/db?mem=1" = .ok ⟨"h2", "", none, "host", "/db", "mem=1", ""⟩ ∧
    parseURL 9092 .inOrder "h2://host/db?mem=1" ⟨false, .ErrorLevel⟩ =
      .returned (⟨"tcp", "host:9092", "mem:db", "", "", true, false, .zero⟩, none)
        ⟨false, .ErrorLevel⟩ ∧
    (parseURL 9092 .inOrder "h2://host/db?logging=%20info&mem=1" ⟨false, .ErrorLevel⟩ =
        parseURL 9092 .inOrder "h2://host/db?mem=1" ⟨false, .ErrorLevel⟩ ∧
      (parseURL 9092 .inOrder "h2://host/db?logging=%20info&mem=1"
        ⟨false, .ErrorLevel⟩).state = ⟨false, .ErrorLevel⟩) :=
  ⟨rfl, rfl, rfl,
    (parseURL_logging_unlisted 9092 .inOrder .inOrder "h2://host/db?logging=%20info&mem=1"
      "h2://host/db?mem=1" ⟨false, .ErrorLevel⟩
      ⟨"h2", "", none, "host", "/db", "logging=%20info&mem=1", ""⟩
      ⟨"h2", "", none, "host", "/db", "mem=1", ""⟩ ("logging", [" info"]) " info" []
      rfl rfl ⟨rfl, rfl, rfl, rfl⟩ (by decide) (by decide) (by decide) rfl
      (by decide)).1,
    (parseURL_logging_unlisted 9092 .inOrder .inOrder "h2://host/db?logging=%20info&mem=1"
      "h2://host/db?mem=1" ⟨false, .ErrorLevel⟩
      ⟨"h2", "", none, "host", "/db", "logging=%20info&mem=1", ""⟩
      ⟨"h2", "", none, "host", "/db", "mem=1", ""⟩ ("logging", [" info"]) " info" []
      rfl rfl ⟨rfl, rfl, rfl, rfl⟩ (by decide) (by decide) (by decide) rfl
      (by decide)).2.1⟩

/-! ## The library model on text outside ASCII -/

/-- The key "logg%C4%B0ng" holds U+0130, which `strings.ToLower` maps to `i`: it is a
logging key, the parse succeeds and sets level Debug. -/
theorem parseURL_dotted_capital_i :
    parseURL 9092 .inOrder "h2://host/db?logg%C4%B0ng=debug" .initial =
      .returned (⟨"tcp", "host:9092", "/db", "", "", false, false, .zero⟩, none)
        ⟨true, .DebugLevel⟩ := by
  decide

/-- The value "%A0" is a lone byte, not the encoding of a rune, and `strings.TrimSpace`
keeps it: the mem value is rejected.  The value "%C2%A0" encodes U+00A0, which is trimmed:
the mem value is empty and accepted. -/
theorem parseURL_mem_no_break_space :
    parseURL 9092 .inOrder "h2://host/db?mem=%A0" .initial =
      .returned (⟨"tcp", "host:9092", "/db", "", "", false, false, .zero⟩, none) .initial ∧
    parseURL 9092 .inOrder "h2://host/db?mem=%C2%A0" .initial =
      .returned (⟨"tcp", "host:9092", "mem:db", "", "", true, false, .zero⟩, none)
        .initial := by
  decide

end H2go
